import Mathlib

/-!
# Fabric topology generator (`internal/blockchain/fabric/fabric_docker.go`)

A shallow embedding of the three exported functions of the file:

* `GenerateCryptoMaterial` and `GenerateGenesisBlock`, which each hand one
  argument vector to the container-execution collaborator
  `docker.RunDockerCommand`;
* `GenerateDockerServiceDefinitions`, which fills a slice of
  `len(s.Members)+3` service definitions.

The functions use `path.Join` and `path.Dir` of the Go standard library,
which are embedded here from the library's sources (`path/path.go`): `Clean`
is the byte-level loop over a write buffer, `Join` the buffer-filling loop
followed by `Clean`, `Dir` is `Split` followed by `Clean`.

Go strings are byte strings.  `Clean` compares bytes with `'/'` and `'.'`
only, both ASCII, and the bytes of a multi-byte UTF-8 sequence are never
ASCII, so on valid UTF-8 the loop over characters below makes the same
decisions as the loop over bytes.
-/

set_option autoImplicit false
set_option maxRecDepth 8000

namespace GoPath

/-- Whether an element ends here: `r == n || path[r] == '/'` for the rest of
the input starting at `r`. -/
def atElemEnd : List Char → Bool
  | [] => true
  | c :: _ => c = '/'

/-- The test `path[r] != '/'` of the copying loop of `Clean` and of
`lastSlash`. -/
def notSlash (c : Char) : Bool := decide (c ≠ '/')

/-- The backtracking of a `..` element in `Clean`:
`out.w--; for out.w > dotdot && out.index(out.w) != '/' { out.w-- }`.
The buffer is kept most recent byte first, so the head of the argument is the
byte at the index `out.w` reaches after each decrement. -/
def backtrack (dotdot : Nat) : List Char → List Char
  | [] => []
  | c :: rest => if dotdot < rest.length ∧ c ≠ '/' then backtrack dotdot rest else rest

/-- The `for r < n` loop of `Clean`.  `rooted` is fixed before the loop; the
second list is `path[r:]`, the third the written part of the buffer (most
recent byte first, so `out.w` is its length), then `dotdot`.  Every iteration
consumes at least one byte, so a fuel of `len(path) - r` is never used up. -/
def cleanLoop (rooted : Bool) : Nat → List Char → List Char → Nat → List Char
  | 0, _, out, _ => out
  | _ + 1, [], out, _ => out
  | fuel + 1, c :: rest, out, dotdot =>
    if c = '/' then
      -- empty path element
      cleanLoop rooted fuel rest out dotdot
    else if c = '.' ∧ atElemEnd rest = true then
      -- . element
      cleanLoop rooted fuel rest out dotdot
    else if c = '.' ∧ rest.head? = some '.' ∧ atElemEnd rest.tail = true then
      -- .. element: remove to last /
      if dotdot < out.length then
        cleanLoop rooted fuel rest.tail (backtrack dotdot out) dotdot
      else if rooted = true then
        cleanLoop rooted fuel rest.tail out dotdot
      else
        cleanLoop rooted fuel rest.tail
          ('.' :: '.' :: (if 0 < out.length then '/' :: out else out))
          (('.' :: '.' :: (if 0 < out.length then '/' :: out else out)).length)
    else
      -- real path element: add slash if needed, copy element
      cleanLoop rooted fuel (rest.dropWhile notSlash)
        ((c :: rest.takeWhile notSlash).reverse ++
          (if (rooted = true ∧ out.length ≠ 1) ∨ (rooted = false ∧ out.length ≠ 0)
            then '/' :: out else out))
        dotdot

/-- The body of `path.Clean` on the characters of the path. -/
def cleanChars (path : List Char) : List Char :=
  match path with
  | [] => ['.']
  | c :: rest =>
    let out :=
      if c = '/' then cleanLoop true rest.length rest ['/'] 1
      else cleanLoop false path.length path [] 0
    if out.length = 0 then ['.'] else out.reverse

/-- Go `path.Clean`. -/
def Clean (path : String) : String := ⟨cleanChars path.data⟩

/-- The buffer-filling loop of `path.Join`:
`if len(buf) > 0 || e != "" { if len(buf) > 0 { buf = append(buf, '/') }; buf = append(buf, e...) }`. -/
def joinBuf : List String → List Char → List Char
  | [], buf => buf
  | e :: es, buf =>
    if 0 < buf.length ∨ e ≠ "" then
      joinBuf es ((if 0 < buf.length then buf ++ ['/'] else buf) ++ e.data)
    else joinBuf es buf

/-- Go `path.Join`.  `size` sums the lengths of the elements and is only
tested against zero; the sum of the character counts is zero exactly when the
sum of the byte counts is. -/
def Join (elem : List String) : String :=
  if (elem.map String.length).sum = 0 then "" else Clean ⟨joinBuf elem []⟩

/-- Go `lastSlash`: the index of the last slash, `-1` when there is none. -/
def lastSlash (s : List Char) : Int :=
  ((s.reverse.dropWhile notSlash).length : Int) - 1

/-- Go `path.Split`: `path[:i+1], path[i+1:]` with `i := lastSlash(path)`. -/
def Split (path : String) : String × String :=
  let i := (lastSlash path.data + 1).toNat
  (⟨path.data.take i⟩, ⟨path.data.drop i⟩)

/-- Go `path.Dir`. -/
def Dir (path : String) : String := Clean (Split path).1

/-- The elements of a path: the pieces between its slashes. -/
def splitSlash : List Char → List (List Char)
  | [] => [[]]
  | c :: cs =>
    if c = '/' then [] :: splitSlash cs
    else
      match splitSlash cs with
      | [] => [[c]]
      | s :: ss => (c :: s) :: ss

/-- The elements after the slash an element ends at. -/
def restSegs : List Char → List (List Char)
  | [] => []
  | _ :: r => splitSlash r

/-- The buffer after a real path element is written to it: a slash if the
buffer holds more than the root, then the element. -/
def push (rooted : Bool) (out seg : List Char) : List Char :=
  seg.reverse ++
    (if (rooted = true ∧ out.length ≠ 1) ∨ (rooted = false ∧ out.length ≠ 0)
      then '/' :: out else out)

/-- One iteration of the loop of `Clean`, seen on a whole element: the buffer
and `dotdot` after the element. -/
def elemStep (rooted : Bool) (st : List Char × Nat) (seg : List Char) : List Char × Nat :=
  if seg = [] then st
  else if seg = ['.'] then st
  else if seg = ['.', '.'] then
    if st.2 < st.1.length then (backtrack st.2 st.1, st.2)
    else if rooted = true then st
    else
      ('.' :: '.' :: (if 0 < st.1.length then '/' :: st.1 else st.1),
        ('.' :: '.' :: (if 0 < st.1.length then '/' :: st.1 else st.1)).length)
  else (push rooted st.1 seg, st.2)

/-- The buffer and `dotdot` before the loop of `Clean`. -/
def initState (rooted : Bool) : List Char × Nat :=
  if rooted = true then (['/'], 1) else ([], 0)

/-- Whether `Clean` takes the path as rooted: `path[0] == '/'`. -/
def isRooted : List Char → Bool
  | [] => false
  | c :: _ => c = '/'

/-- The end of `Clean`: an empty buffer is turned into ".". -/
def finish (out : List Char) : List Char :=
  if out.length = 0 then ['.'] else out.reverse

/-- A real path element: not empty, without a slash, neither "." nor "..". -/
def SimpleSeg (seg : List Char) : Prop :=
  seg ≠ [] ∧ '/' ∉ seg ∧ seg ≠ ['.'] ∧ seg ≠ ['.', '.']

instance (seg : List Char) : Decidable (SimpleSeg seg) := by
  unfold SimpleSeg; infer_instance

/-- The buffers the loop of `Clean` can hold, with their `dotdot`: the root or
nothing, then `..` elements if the path is not rooted, then real elements. -/
inductive NF (rooted : Bool) : List Char → Nat → Prop
  | init : NF rooted (initState rooted).1 (initState rooted).2
  | dots (o : List Char) (dd : Nat) : rooted = false → NF rooted o dd → dd = o.length →
      NF rooted ('.' :: '.' :: (if 0 < o.length then '/' :: o else o))
        (('.' :: '.' :: (if 0 < o.length then '/' :: o else o)).length)
  | seg (o : List Char) (dd : Nat) (s : List Char) : NF rooted o dd → SimpleSeg s →
      NF rooted (push rooted o s) dd

/-- A buffer that holds more than the root gets a slash before the next
element: the test of `Clean` before it copies a real element. -/
def NeedsSlash (rooted : Bool) (out : List Char) : Prop :=
  (rooted = true ∧ out.length ≠ 1) ∨ (rooted = false ∧ out.length ≠ 0)

/-- The buffer and `dotdot` of `Clean` at the end of the path `x`. -/
def run (x : List Char) : List Char × Nat :=
  (splitSlash x).foldl (elemStep (isRooted x)) (initState (isRooted x))

/-- The path "/t1/t2/.../tk" of the elements t1, ..., tk. -/
def tailPath : List (List Char) → List Char
  | [] => []
  | t :: ts => '/' :: t ++ tailPath ts

end GoPath

namespace Fabric

open GoPath

/-- Modelled from the spec: `types.Member`, declared outside this file; the
generator reads only its identifier. -/
structure Member where
  ID : String
  deriving DecidableEq, Repr

/-- Modelled from the spec: `types.Stack`, declared outside this file; a name
and the ordered sequence of members. -/
structure Stack where
  Name : String
  Members : List Member
  deriving DecidableEq, Repr

/-- Modelled from the spec: `docker.Service`, declared outside this file, with
the fields this file sets.  A field the composite literal leaves out has its
zero value: the empty string, the nil slice or the nil map (an empty list
here). -/
structure Service where
  Image : String := ""
  Environment : List (String × String) := []
  Ports : List String := []
  Volumes : List String := []
  WorkingDir : String := ""
  Command : String := ""
  deriving DecidableEq, Repr

/-- Modelled from the spec: `docker.ServiceDefinition`, declared outside this
file.  `Service` is a pointer, `none` when nil. -/
structure ServiceDefinition where
  ServiceName : String
  Service : Option Service := none
  VolumeNames : List String := []
  deriving DecidableEq, Repr

/-- One invocation of `docker.RunDockerCommand(workingDir, showCommand,
pipeStdOut, command...)`. -/
structure DockerCall where
  workingDir : String
  showCommand : Bool
  pipeStdOut : Bool
  command : List String
  deriving DecidableEq, Repr

/-- The container-execution collaborator, injected: given the invocations made
so far and the present one it returns `nil` (`none`) or an error. -/
abbrev Collaborator := List DockerCall → DockerCall → Option String

/-- Modelled from the spec: `docker.RunDockerCommand`, declared outside this
file: one call against the collaborator, recorded in the log of invocations. -/
def RunDockerCommand (docker : Collaborator) (call : DockerCall)
    (log : List DockerCall) : Option String × List DockerCall :=
  (docker log call, log ++ [call])

/-- `GenerateCryptoMaterial`: the error returned and the log of invocations
afterwards. -/
def GenerateCryptoMaterial (docker : Collaborator) (cryptogenConfigPath outputPath : String)
    (verbose : Bool) (log : List DockerCall) : Option String × List DockerCall :=
  RunDockerCommand docker
    { workingDir := Dir cryptogenConfigPath
      showCommand := verbose
      pipeStdOut := verbose
      command := ["run", "--rm", "-v", cryptogenConfigPath ++ ":/etc/template.yml",
        "-v", outputPath ++ ":/output", "hyperledger/fabric-tools", "cryptogen",
        "generate", "--config", "/etc/template.yml", "--output", "/output"] }
    log

/-- `GenerateGenesisBlock`: the error returned and the log of invocations
afterwards. -/
def GenerateGenesisBlock (docker : Collaborator) (outputPath : String)
    (verbose : Bool) (log : List DockerCall) : Option String × List DockerCall :=
  RunDockerCommand docker
    { workingDir := outputPath
      showCommand := verbose
      pipeStdOut := verbose
      command := ["run", "--rm", "-v", outputPath ++ ":/genesis",
        "hyperledger/fabric-tools", "configtxgen", "-outputBlock",
        "/genesis/genesis_block.pb", "-profile", "SampleDevModeSolo",
        "-channelID", "firefly"] }
    log

/-- The Fabric CA definition written to index 0. -/
def caDefinition : ServiceDefinition :=
  { ServiceName := "ca_org1"
    Service := some
      { Image := "hyperledger/fabric-ca:latest"
        Environment :=
          [ ("FABRIC_CA_HOME", "/etc/hyperledger/fabric-ca-server"),
            ("FABRIC_CA_SERVER_CA_NAME", "ca-org1"),
            ("FABRIC_CA_SERVER_TLS_ENABLED", "true"),
            ("FABRIC_CA_SERVER_PORT", "7054"),
            ("FABRIC_CA_SERVER_OPERATIONS_LISTENADDRESS", "0.0.0.0:17054") ]
        Ports := ["7054:7054", "17054:17054"]
        Command := "sh -c 'fabric-ca-server start -b admin:adminpw -d'" } }

/-- The Fabric orderer definition written to index 1. -/
def ordererDefinition (stackDir : String) : ServiceDefinition :=
  { ServiceName := "orderer.example.com"
    Service := some
      { Image := "hyperledger/fabric-ca:latest"
        Environment :=
          [ ("FABRIC_LOGGING_SPEC", "INFO"),
            ("ORDERER_GENERAL_LISTENADDRESS", "0.0.0.0"),
            ("ORDERER_GENERAL_LISTENPORT", "7050"),
            ("ORDERER_GENERAL_LOCALMSPID", "OrdererMSP"),
            ("ORDERER_GENERAL_LOCALMSPDIR", "/var/hyperledger/orderer/msp"),
            ("ORDERER_GENERAL_TLS_ENABLED", "true"),
            ("ORDERER_GENERAL_TLS_PRIVATEKEY", "/var/hyperledger/orderer/tls/server.key"),
            ("ORDERER_GENERAL_TLS_CERTIFICATE", "/var/hyperledger/orderer/tls/server.crt"),
            ("ORDERER_GENERAL_TLS_ROOTCAS", "[/var/hyperledger/orderer/tls/ca.crt]"),
            ("ORDERER_KAFKA_TOPIC_REPLICATIONFACTOR", "1"),
            ("ORDERER_KAFKA_VERBOSE", "true"),
            ("ORDERER_GENERAL_CLUSTER_CLIENTCERTIFICATE", "/var/hyperledger/orderer/tls/server.crt"),
            ("ORDERER_GENERAL_CLUSTER_CLIENTPRIVATEKEY", "/var/hyperledger/orderer/tls/server.key"),
            ("ORDERER_GENERAL_CLUSTER_ROOTCAS", "[/var/hyperledger/orderer/tls/ca.crt]"),
            ("ORDERER_GENERAL_BOOTSTRAPMETHOD", "none"),
            ("ORDERER_CHANNELPARTICIPATION_ENABLED", "true"),
            ("ORDERER_ADMIN_TLS_ENABLED", "true"),
            ("ORDERER_ADMIN_TLS_CERTIFICATE", "/var/hyperledger/orderer/tls/server.crt"),
            ("ORDERER_ADMIN_TLS_PRIVATEKEY", "/var/hyperledger/orderer/tls/server.key"),
            ("ORDERER_ADMIN_TLS_ROOTCAS", "[/var/hyperledger/orderer/tls/ca.crt]"),
            ("ORDERER_ADMIN_TLS_CLIENTROOTCAS", "[/var/hyperledger/orderer/tls/ca.crt]"),
            ("ORDERER_ADMIN_LISTENADDRESS", "0.0.0.0:7053"),
            ("ORDERER_OPERATIONS_LISTENADDRESS", "0.0.0.0:17050") ]
        WorkingDir := "/opt/gopath/src/github.com/hyperledger/fabric"
        Command := "orderer"
        Volumes :=
          [ Join [stackDir, "blockchain", "genesis_block.pb"] ++
              ":/var/hyperledger/orderer/orderer.genesis.block",
            Join [stackDir, "blockchain", "cryptogen", "ordererOrganizations", "example.com",
              "orderers", "orderer.example.com", "msp"] ++ ":/var/hyperledger/orderer/msp",
            Join [stackDir, "blockchain", "cryptogen", "ordererOrganizations", "example.com",
              "orderers", "orderer.example.com", "tls"] ++ ":/var/hyperledger/orderer/tls",
            "orderer.example.com:/var/hyperledger/production/orderer" ]
        Ports := ["7054:7054", "17054:17054"] }
    VolumeNames := ["orderer.example.com"] }

/-- The Fabric peer definition written to index 2. -/
def peerDefinition (stackDir : String) : ServiceDefinition :=
  { ServiceName := "peer0.org1.example.com"
    Service := some
      { Image := "hyperledger/fabric-peer:latest"
        Environment :=
          [ ("CORE_VM_ENDPOINT", "unix:///host/var/run/docker.sock"),
            ("CORE_VM_DOCKER_HOSTCONFIG_NETWORKMODE", "fabric_test"),
            ("FABRIC_LOGGING_SPEC", "INFO"),
            ("CORE_PEER_TLS_ENABLED", "true"),
            ("CORE_PEER_PROFILE_ENABLED", "false"),
            ("CORE_PEER_TLS_CERT_FILE", "/etc/hyperledger/fabric/tls/server.crt"),
            ("CORE_PEER_TLS_KEY_FILE", "/etc/hyperledger/fabric/tls/server.key"),
            ("CORE_PEER_TLS_ROOTCERT_FILE", "/etc/hyperledger/fabric/tls/ca.crt"),
            ("CORE_PEER_ID", "peer0.org1.example.com"),
            ("CORE_PEER_ADDRESS", "peer0.org1.example.com:7051"),
            ("CORE_PEER_LISTENADDRESS", "0.0.0.0:7051"),
            ("CORE_PEER_CHAINCODEADDRESS", "peer0.org1.example.com:7052"),
            ("CORE_PEER_CHAINCODELISTENADDRESS", "0.0.0.0:7052"),
            ("CORE_PEER_GOSSIP_BOOTSTRAP", "peer0.org1.example.com:7051"),
            ("CORE_PEER_GOSSIP_EXTERNALENDPOINT", "peer0.org1.example.com:7051"),
            ("CORE_PEER_LOCALMSPID", "Org1MSP"),
            ("CORE_OPERATIONS_LISTENADDRESS", "0.0.0.0:17051") ]
        Volumes :=
          [ Join [stackDir, "blockchain", "cryptogen", "peerOrganizations", "org1.example.com",
              "peers", "peer0.org1.example.com", "msp"] ++ ":/etc/hyperledger/fabric/msp",
            Join [stackDir, "blockchain", "cryptogen", "peerOrganizations", "org1.example.com",
              "peers", "peer0.org1.example.com", "tls"] ++ ":/etc/hyperledger/fabric/tls",
            "peer0.org1.example.com:/var/hyperledger/production" ] } }

/-- The Fabconnect definition written for one member. -/
def connectorDefinition (member : Member) : ServiceDefinition :=
  { ServiceName := "fabconnect_" ++ member.ID }

/-- The assignment `serviceDefinitions[i] = &d`: a write outside the length of
the slice panics. -/
def setSlot (defs : List (Option ServiceDefinition)) (i : Nat) (d : ServiceDefinition) :
    Except String (List (Option ServiceDefinition)) :=
  if i < defs.length then .ok (defs.set i (some d)) else .error "index out of range"

/-- The loop `for i, member := range s.Members`, from index `i` on. -/
def connectorLoop : List Member → Nat → List (Option ServiceDefinition) →
    Except String (List (Option ServiceDefinition))
  | [], _, defs => .ok defs
  | member :: rest, i, defs =>
    match setSlot defs (i + 3) (connectorDefinition member) with
    | .error e => .error e
    | .ok defs1 => connectorLoop rest (i + 1) defs1

/-- `GenerateDockerServiceDefinitions`.  `StacksDir` stands for
`constants.StacksDir`, declared outside this file.  The stack is a pointer
(`none` when nil, whose dereference panics); the slice holds pointers, nil
(`none`) in every slot after `make`. -/
def GenerateDockerServiceDefinitions (StacksDir : String) (s : Option Stack) :
    Except String (List (Option ServiceDefinition)) :=
  match s with
  | none => .error "nil pointer dereference"
  | some s =>
    let stackDir := Join [StacksDir, s.Name]
    let serviceDefinitions : List (Option ServiceDefinition) :=
      List.replicate (s.Members.length + 3) none
    match setSlot serviceDefinitions 0 caDefinition with
    | .error e => .error e
    | .ok defs0 =>
      match setSlot defs0 1 (ordererDefinition stackDir) with
      | .error e => .error e
      | .ok defs1 =>
        match setSlot defs1 2 (peerDefinition stackDir) with
        | .error e => .error e
        | .ok defs2 => connectorLoop s.Members 0 defs2

/-- The slice the generator returns for a stack: the three infrastructure
definitions, then one connector per member. -/
def topology (StacksDir : String) (s : Stack) : List ServiceDefinition :=
  [caDefinition, ordererDefinition (Join [StacksDir, s.Name]),
    peerDefinition (Join [StacksDir, s.Name])] ++ s.Members.map connectorDefinition

/-- The Volumes list of a definition, empty when its Service is nil. -/
def volumesOf (d : ServiceDefinition) : List String :=
  match d.Service with
  | some sv => sv.Volumes
  | none => []

/-- The host path the filesystem layout contract documents for an entry
`suffix`: `<stacksRoot>/<stackName>/blockchain/<suffix>`, as text. -/
def layoutPath (stacksRoot stackName suffix : String) : String :=
  stacksRoot ++ "/" ++ stackName ++ "/blockchain/" ++ suffix

/-- The Volumes the claim on path consistency gives the orderer, when `host`
maps an entry of the layout to its host path. -/
def ordererBinds (host : String → String) : List String :=
  [ host "genesis_block.pb" ++ ":/var/hyperledger/orderer/orderer.genesis.block",
    host "cryptogen/ordererOrganizations/example.com/orderers/orderer.example.com/msp" ++
      ":/var/hyperledger/orderer/msp",
    host "cryptogen/ordererOrganizations/example.com/orderers/orderer.example.com/tls" ++
      ":/var/hyperledger/orderer/tls",
    "orderer.example.com:/var/hyperledger/production/orderer" ]

/-- The Volumes the claim on path consistency gives the peer, when `host` maps
an entry of the layout to its host path. -/
def peerBinds (host : String → String) : List String :=
  [ host "cryptogen/peerOrganizations/org1.example.com/peers/peer0.org1.example.com/msp" ++
      ":/etc/hyperledger/fabric/msp",
    host "cryptogen/peerOrganizations/org1.example.com/peers/peer0.org1.example.com/tls" ++
      ":/etc/hyperledger/fabric/tls",
    "peer0.org1.example.com:/var/hyperledger/production" ]

/-- A stack name that is one real path element: not empty, without a slash,
neither "." nor "..". -/
def IsPathElement (name : String) : Prop := SimpleSeg name.data

instance (name : String) : Decidable (IsPathElement name) := by
  unfold IsPathElement; infer_instance

/-- The source of a volume binding `<source>:<target>[:<mode>]`: the text before
the first colon. -/
def bindingSource (binding : String) : String :=
  ⟨binding.data.takeWhile (fun c => c ≠ ':')⟩

/-- A binding whose source is a volume name rather than an absolute host
path. -/
def isNamedVolume (binding : String) : Bool :=
  (bindingSource binding).data.head? ≠ some '/'

/-- The names of the named volumes a definition refers to in its Volumes. -/
def namedVolumes (d : ServiceDefinition) : List String :=
  ((volumesOf d).filter isNamedVolume).map bindingSource

/-- A binding that carries the read-only mode: it ends in ":ro". -/
def isReadOnlyBinding (binding : String) : Bool :=
  binding.data.reverse.take 3 = ['o', 'r', ':']

/-- An absolute path: one that begins with a slash. -/
def IsAbsolute (path : String) : Prop := isRooted path.data = true

instance (path : String) : Decidable (IsAbsolute path) := by
  unfold IsAbsolute; infer_instance

/-- The target of a binding `<source>:<target>`: the text after the first
colon. -/
def bindingTarget (binding : String) : String :=
  ⟨(binding.data.dropWhile (fun c => c ≠ ':')).drop 1⟩

/-- The Ports list of a definition, empty when its Service is nil. -/
def portsOf (d : ServiceDefinition) : List String :=
  match d.Service with
  | some sv => sv.Ports
  | none => []

/-- The value of an environment variable of a definition. -/
def envOf (d : ServiceDefinition) (key : String) : Option String :=
  match d.Service with
  | some sv => sv.Environment.lookup key
  | none => none

/-- The image of a definition, none when its Service is nil. -/
def imageOf (d : ServiceDefinition) : Option String :=
  d.Service.map (fun sv => sv.Image)

/-- The startup command of a definition, none when its Service is nil. -/
def commandOf (d : ServiceDefinition) : Option String :=
  d.Service.map (fun sv => sv.Command)

/-- The host port of a port binding `<host port>:<container port>`. -/
def hostPort (binding : String) : String := bindingSource binding

/-- The container port of a port binding `<host port>:<container port>`. -/
def containerPort (binding : String) : String := bindingTarget binding

/-- The port of an address `<host>:<port>`: the text after the last colon. -/
def addressPort (address : String) : String :=
  ⟨(address.data.reverse.takeWhile (fun c => c ≠ ':')).reverse⟩

/-- Two definitions whose Ports lists publish the same host port. -/
def portsConflict (d1 d2 : ServiceDefinition) : Bool :=
  (portsOf d1).any (fun b1 => (portsOf d2).any (fun b2 => hostPort b1 = hostPort b2))

/-- A definition without its volume bindings: every other field is kept. -/
def clearVolumes (d : ServiceDefinition) : ServiceDefinition :=
  { d with Service := d.Service.map (fun sv => { sv with Volumes := [] }) }

/-- The entries of the documented layout below `<stackDir>/blockchain/` that
the orderer and the peer bind. -/
def layoutEntries : List String :=
  [ "genesis_block.pb",
    "cryptogen/ordererOrganizations/example.com/orderers/orderer.example.com/msp",
    "cryptogen/ordererOrganizations/example.com/orderers/orderer.example.com/tls",
    "cryptogen/peerOrganizations/org1.example.com/peers/peer0.org1.example.com/msp",
    "cryptogen/peerOrganizations/org1.example.com/peers/peer0.org1.example.com/tls" ]

/-- The host path the generator joins for an entry `suffix` of the layout below
the directory of a stack: `path.Join(stackDir, "blockchain", <elements of suffix>)`. -/
def hostUnder (stackDir suffix : String) : String :=
  Join (stackDir :: "blockchain" :: (splitSlash suffix.data).map String.mk)

end Fabric

/-! ## `Clean` as a fold over the elements of the path -/

namespace GoPath

theorem notSlash_slash : notSlash '/' = false := by decide

theorem notSlash_of_ne {c : Char} (h : ¬ c = '/') : notSlash c = true := by
  simp [notSlash, h]

theorem takeWhile_slash (cs : List Char) : ('/' :: cs).takeWhile notSlash = [] := by
  rw [List.takeWhile_cons, notSlash_slash]; rfl

theorem dropWhile_slash (cs : List Char) : ('/' :: cs).dropWhile notSlash = '/' :: cs := by
  rw [List.dropWhile_cons, notSlash_slash]; rfl

theorem takeWhile_of_ne {c : Char} (h : ¬ c = '/') (cs : List Char) :
    (c :: cs).takeWhile notSlash = c :: cs.takeWhile notSlash := by
  rw [List.takeWhile_cons, notSlash_of_ne h]; rfl

theorem dropWhile_of_ne {c : Char} (h : ¬ c = '/') (cs : List Char) :
    (c :: cs).dropWhile notSlash = cs.dropWhile notSlash := by
  rw [List.dropWhile_cons, notSlash_of_ne h]; rfl

theorem dropWhile_of_atElemEnd (l : List Char) (h : atElemEnd l = true) :
    l.dropWhile notSlash = l := by
  cases l with
  | nil => rfl
  | cons a r =>
    have : a = '/' := by simpa [atElemEnd] using h
    subst this
    exact dropWhile_slash r

theorem splitSlash_ne_nil (p : List Char) : splitSlash p ≠ [] := by
  cases p with
  | nil => simp [splitSlash]
  | cons c cs =>
    unfold splitSlash
    split
    · simp
    · split <;> simp

theorem atElemEnd_iff (l : List Char) : atElemEnd l = true ↔ l.takeWhile notSlash = [] := by
  cases l with
  | nil => simp [atElemEnd]
  | cons c cs =>
    by_cases h : c = '/'
    · subst h; simp [atElemEnd, takeWhile_slash]
    · simp [atElemEnd, takeWhile_of_ne h, h]

theorem atElemEnd_dropWhile (l : List Char) : atElemEnd (l.dropWhile notSlash) = true := by
  induction l with
  | nil => simp [atElemEnd]
  | cons c cs ih =>
    by_cases h : c = '/'
    · subst h; simp [atElemEnd, dropWhile_slash]
    · simpa [dropWhile_of_ne h] using ih

theorem splitSlash_of_atElemEnd (l : List Char) (h : atElemEnd l = true) :
    splitSlash l = [] :: restSegs l := by
  cases l with
  | nil => simp [splitSlash, restSegs]
  | cons c cs =>
    have hc : c = '/' := by simpa [atElemEnd] using h
    simp [splitSlash, restSegs, hc]

theorem splitSlash_eq (p : List Char) :
    splitSlash p = p.takeWhile notSlash :: restSegs (p.dropWhile notSlash) := by
  induction p with
  | nil => simp [splitSlash, restSegs]
  | cons c cs ih =>
    by_cases h : c = '/'
    · subst h; simp [splitSlash, restSegs, takeWhile_slash, dropWhile_slash]
    · simp [splitSlash, h, takeWhile_of_ne h, dropWhile_of_ne h, ih]

theorem foldl_elemStep_atElemEnd (rooted : Bool) (st : List Char × Nat) (l : List Char)
    (h : atElemEnd l = true) :
    (splitSlash l).foldl (elemStep rooted) st = (restSegs l).foldl (elemStep rooted) st := by
  rw [splitSlash_of_atElemEnd l h]
  simp [elemStep]

theorem cleanLoop_eq_foldl (rooted : Bool) :
    ∀ (fuel : Nat) (p out : List Char) (dotdot : Nat), p.length ≤ fuel →
      cleanLoop rooted fuel p out dotdot =
        ((splitSlash p).foldl (elemStep rooted) (out, dotdot)).1 := by
  intro fuel
  induction fuel with
  | zero =>
    intro p out dotdot hp
    have : p = [] := List.length_eq_zero.1 (Nat.le_zero.1 hp)
    subst this
    simp [cleanLoop, splitSlash, elemStep]
  | succ fuel ih =>
    intro p out dotdot hp
    cases p with
    | nil => simp [cleanLoop, splitSlash, elemStep]
    | cons c rest =>
      have hrest : rest.length ≤ fuel := by simpa using hp
      unfold cleanLoop
      by_cases hc : c = '/'
      · rw [if_pos hc, ih rest out dotdot hrest]
        simp [splitSlash, hc, elemStep]
      · rw [if_neg hc]
        by_cases hdot : c = '.' ∧ atElemEnd rest = true
        · rw [if_pos hdot, ih rest out dotdot hrest, foldl_elemStep_atElemEnd _ _ _ hdot.2,
            splitSlash_eq (c :: rest)]
          have ht := (atElemEnd_iff rest).1 hdot.2
          have hd := dropWhile_of_atElemEnd rest hdot.2
          rw [takeWhile_of_ne hc, dropWhile_of_ne hc, ht, hd, hdot.1]
          simp [elemStep]
        · rw [if_neg hdot]
          by_cases hdd : c = '.' ∧ rest.head? = some '.' ∧ atElemEnd rest.tail = true
          · rw [if_pos hdd]
            obtain ⟨hc1, hh, he⟩ := hdd
            cases rest with
            | nil => simp at hh
            | cons a r =>
              have ha : a = '.' := by simpa using hh
              subst ha
              simp only [List.tail_cons] at he ⊢
              have hr : r.length ≤ fuel := by
                simp only [List.length_cons] at hrest; omega
              have ht := (atElemEnd_iff r).1 he
              have hd := dropWhile_of_atElemEnd r he
              have hdotne : ¬ '.' = '/' := by decide
              have hsplit : splitSlash (c :: '.' :: r) = ['.', '.'] :: restSegs r := by
                rw [splitSlash_eq, takeWhile_of_ne hc, dropWhile_of_ne hc,
                  takeWhile_of_ne hdotne, dropWhile_of_ne hdotne, ht, hd, hc1]
              rw [hsplit]
              simp only [List.foldl_cons]
              by_cases h1 : dotdot < out.length
              · rw [if_pos h1, ih _ _ _ hr, foldl_elemStep_atElemEnd _ _ _ he]
                simp [elemStep, h1]
              · rw [if_neg h1]
                by_cases h2 : rooted = true
                · rw [if_pos h2, ih _ _ _ hr, foldl_elemStep_atElemEnd _ _ _ he]
                  simp [elemStep, h1, h2]
                · rw [if_neg h2, ih _ _ _ hr, foldl_elemStep_atElemEnd _ _ _ he]
                  simp [elemStep, h1, h2]
          · rw [if_neg hdd]
            have hlen : (rest.dropWhile notSlash).length ≤ fuel :=
              le_trans (List.Sublist.length_le (List.dropWhile_sublist _)) hrest
            rw [ih _ _ _ hlen, foldl_elemStep_atElemEnd _ _ _ (atElemEnd_dropWhile rest),
              splitSlash_eq (c :: rest)]
            rw [takeWhile_of_ne hc, dropWhile_of_ne hc]
            simp only [List.foldl_cons]
            have hne1 : c :: rest.takeWhile notSlash ≠ ['.'] := by
              intro h
              simp only [List.cons.injEq] at h
              exact hdot ⟨h.1, (atElemEnd_iff rest).2 h.2⟩
            have hne2 : c :: rest.takeWhile notSlash ≠ ['.', '.'] := by
              intro h
              simp only [List.cons.injEq] at h
              apply hdd
              refine ⟨h.1, ?_⟩
              cases rest with
              | nil => simp at h
              | cons a r =>
                by_cases ha : a = '/'
                · subst ha
                  rw [takeWhile_slash] at h
                  simp at h
                · rw [takeWhile_of_ne ha] at h
                  simp only [List.cons.injEq] at h
                  exact ⟨by simp [h.2.1], (atElemEnd_iff r).2 h.2.2⟩
            rw [elemStep, if_neg (List.cons_ne_nil _ _), if_neg hne1, if_neg hne2]
            rfl

theorem elemStep_nil (rooted : Bool) (st : List Char × Nat) : elemStep rooted st [] = st := by
  simp [elemStep]

theorem elemStep_simple (rooted : Bool) (st : List Char × Nat) (s : List Char)
    (hs : SimpleSeg s) : elemStep rooted st s = (push rooted st.1 s, st.2) := by
  obtain ⟨h0, _, h1, h2⟩ := hs
  simp [elemStep, h0, h1, h2]

theorem cleanChars_eq (p : List Char) (hp : p ≠ []) :
    cleanChars p =
      finish ((splitSlash p).foldl (elemStep (isRooted p)) (initState (isRooted p))).1 := by
  cases p with
  | nil => exact absurd rfl hp
  | cons c rest =>
    unfold cleanChars
    by_cases hc : c = '/'
    · subst hc
      simp only [if_true]
      rw [cleanLoop_eq_foldl true _ _ _ _ (le_refl _)]
      simp [splitSlash, isRooted, initState, elemStep_nil, finish]
    · simp only [if_neg hc]
      rw [cleanLoop_eq_foldl false _ _ _ _ (le_refl _)]
      simp [isRooted, hc, initState, finish]

theorem splitSlash_append (a b : List Char) :
    splitSlash (a ++ '/' :: b) = splitSlash a ++ splitSlash b := by
  induction a with
  | nil => simp [splitSlash]
  | cons c a ih =>
    by_cases hc : c = '/'
    · simp [splitSlash, hc, ih]
    · have hne := splitSlash_ne_nil a
      simp only [List.cons_append, splitSlash, if_neg hc]
      have ih' : splitSlash (a.append ('/' :: b)) = splitSlash a ++ splitSlash b := ih
      rw [ih']
      cases h : splitSlash a with
      | nil => exact absurd h hne
      | cons s ss => simp

theorem splitSlash_noSlash (p : List Char) : ∀ s ∈ splitSlash p, '/' ∉ s := by
  induction p with
  | nil => simp [splitSlash]
  | cons c cs ih =>
    by_cases hc : c = '/'
    · simp only [splitSlash, hc, if_true]
      intro s hs
      rcases List.mem_cons.1 hs with h | h
      · simp [h]
      · exact ih s h
    · simp only [splitSlash, if_neg hc]
      cases h : splitSlash cs with
      | nil => exact absurd h (splitSlash_ne_nil cs)
      | cons s ss =>
        rw [h] at ih
        intro t ht
        rcases List.mem_cons.1 ht with h1 | h1
        · subst h1
          have := ih s (List.mem_cons_self _ _)
          simp only [List.mem_cons, not_or]
          exact ⟨fun e => hc e.symm, this⟩
        · exact ih t (List.mem_cons_of_mem _ h1)

theorem splitSlash_of_noSlash (s : List Char) (hs : '/' ∉ s) : splitSlash s = [s] := by
  induction s with
  | nil => rfl
  | cons c cs ih =>
    simp only [List.mem_cons, not_or] at hs
    have hc : ¬ c = '/' := fun e => hs.1 e.symm
    simp [splitSlash, hc, ih hs.2]

theorem splitSlash_tailPath (x : List Char) (ts : List (List Char))
    (hts : ∀ t ∈ ts, '/' ∉ t) : splitSlash (x ++ tailPath ts) = splitSlash x ++ ts := by
  induction ts generalizing x with
  | nil => simp [tailPath]
  | cons t ts ih =>
    have h1 : x ++ tailPath (t :: ts) = (x ++ '/' :: t) ++ tailPath ts := by
      simp [tailPath]
    rw [h1, ih _ (fun u hu => hts u (List.mem_cons_of_mem _ hu)), splitSlash_append,
      splitSlash_of_noSlash t (hts t (List.mem_cons_self _ _))]
    simp

theorem isRooted_append (a b : List Char) (ha : a ≠ []) : isRooted (a ++ b) = isRooted a := by
  cases a with
  | nil => exact absurd rfl ha
  | cons c a => rfl

/-! ### Pushing real elements -/

theorem foldl_elemStep_simple (rooted : Bool) (ts : List (List Char))
    (hts : ∀ t ∈ ts, SimpleSeg t) (st : List Char × Nat) :
    ts.foldl (elemStep rooted) st = (ts.foldl (push rooted) st.1, st.2) := by
  induction ts generalizing st with
  | nil => rfl
  | cons t ts ih =>
    simp only [List.foldl_cons]
    rw [elemStep_simple rooted st t (hts t (List.mem_cons_self _ _)),
      ih (fun u hu => hts u (List.mem_cons_of_mem _ hu))]

theorem push_of_needsSlash (rooted : Bool) (out s : List Char) (h : NeedsSlash rooted out) :
    push rooted out s = s.reverse ++ '/' :: out := by
  unfold NeedsSlash at h
  unfold push
  rw [if_pos h]

theorem push_of_not_needsSlash (rooted : Bool) (out s : List Char)
    (h : ¬ NeedsSlash rooted out) : push rooted out s = s.reverse ++ out := by
  unfold NeedsSlash at h
  unfold push
  rw [if_neg h]

theorem needsSlash_push (rooted : Bool) (out s : List Char) (hs : s ≠ []) :
    NeedsSlash rooted (push rooted out s) := by
  have hlen : 0 < s.length := List.length_pos.2 hs
  by_cases h : NeedsSlash rooted out
  · rw [push_of_needsSlash _ _ _ h]
    cases rooted
    · right; simp
    · left; refine ⟨rfl, ?_⟩; simp; omega
  · rw [push_of_not_needsSlash _ _ _ h]
    cases rooted
    · right; exact ⟨rfl, by simp [hs]⟩
    · left
      refine ⟨rfl, ?_⟩
      have : out.length = 1 := by
        by_contra hne
        exact h (Or.inl ⟨rfl, hne⟩)
      simp; omega

theorem reverse_foldl_push (rooted : Bool) (ts : List (List Char))
    (hts : ∀ t ∈ ts, SimpleSeg t) (out : List Char) (h : NeedsSlash rooted out) :
    (ts.foldl (push rooted) out).reverse = out.reverse ++ tailPath ts := by
  induction ts generalizing out with
  | nil => simp [tailPath]
  | cons t ts ih =>
    simp only [List.foldl_cons]
    rw [ih (fun u hu => hts u (List.mem_cons_of_mem _ hu)) _
      (needsSlash_push rooted out t (hts t (List.mem_cons_self _ _)).1),
      push_of_needsSlash _ _ _ h]
    simp [tailPath]

theorem foldl_push_ne_nil (rooted : Bool) (ts : List (List Char))
    (hts : ∀ t ∈ ts, SimpleSeg t) (out : List Char) (h : NeedsSlash rooted out)
    (hout : out ≠ []) : ts.foldl (push rooted) out ≠ [] := by
  intro he
  have := reverse_foldl_push rooted ts hts out h
  rw [he] at this
  have h2 := congrArg List.length this
  have h3 := List.length_pos.2 hout
  simp at h2
  omega

theorem push_ne_nil (rooted : Bool) (out s : List Char) (hs : s ≠ []) :
    push rooted out s ≠ [] := by
  unfold push
  simp [hs]

/-- Cleaning a path followed by real elements: the first element is pushed on
the buffer of the path, the others follow as they are. -/
theorem cleanChars_append_tailPath (x t : List Char) (ts : List (List Char)) (hx : x ≠ [])
    (hts : ∀ u ∈ t :: ts, SimpleSeg u) :
    cleanChars (x ++ tailPath (t :: ts)) =
      (push (isRooted x) (run x).1 t).reverse ++ tailPath ts := by
  have hx' : x ++ tailPath (t :: ts) ≠ [] := by simp [hx]
  rw [cleanChars_eq _ hx', isRooted_append _ _ hx,
    splitSlash_tailPath _ _ (fun u hu => (hts u hu).2.1), List.foldl_append,
    foldl_elemStep_simple _ _ hts]
  simp only [List.foldl_cons]
  have ht := hts t (List.mem_cons_self _ _)
  have hts' : ∀ u ∈ ts, SimpleSeg u := fun u hu => hts u (List.mem_cons_of_mem _ hu)
  have hn := needsSlash_push (isRooted x) (run x).1 t ht.1
  have hne := foldl_push_ne_nil _ ts hts' _ hn (push_ne_nil _ _ _ ht.1)
  unfold finish
  unfold run at hn hne ⊢
  rw [if_neg (by simpa using hne), reverse_foldl_push _ ts hts' _ hn]

/-! ### The buffers of `Clean` -/

theorem NF_dotdot_le (rooted : Bool) (o : List Char) (dd : Nat) (h : NF rooted o dd) :
    dd ≤ o.length := by
  induction h with
  | init => cases rooted <;> simp [initState]
  | dots o dd _ _ _ _ => exact le_refl _
  | seg o dd s _ _ ih =>
    unfold push
    split <;> simp <;> omega

theorem NF_rooted (o : List Char) (dd : Nat) (h : NF true o dd) :
    dd = 1 ∧ o ≠ [] ∧ (o.length = 1 → o = ['/']) := by
  induction h with
  | init => simp [initState]
  | dots o dd hr _ _ _ => exact absurd hr (by decide)
  | seg o dd s _ hs ih =>
    refine ⟨ih.1, push_ne_nil _ _ _ hs.1, ?_⟩
    intro hlen
    have h1 := List.length_pos.2 hs.1
    have h2 := List.length_pos.2 ih.2.1
    unfold push at hlen
    split at hlen <;> simp at hlen <;> omega

theorem NF_unrooted_nil (dd : Nat) (h : NF false [] dd) : dd = 0 := by
  have := NF_dotdot_le false [] dd h
  simpa using this

theorem backtrack_append_slash (dd : Nat) (l o : List Char) (hl : ∀ c ∈ l, c ≠ '/')
    (hdd : dd ≤ o.length) : backtrack dd (l ++ '/' :: o) = o := by
  induction l with
  | nil => simp [backtrack]
  | cons c l ih =>
    have hc : c ≠ '/' := hl c (List.mem_cons_self _ _)
    have hlen : dd < (l ++ '/' :: o).length := by simp; omega
    simp only [List.cons_append, backtrack]
    rw [if_pos ⟨hlen, hc⟩]
    exact ih (fun x hx => hl x (List.mem_cons_of_mem _ hx))

theorem backtrack_append_base (dd : Nat) (l o : List Char) (hl : ∀ c ∈ l, c ≠ '/')
    (hne : l ≠ []) (hdd : dd = o.length) : backtrack dd (l ++ o) = o := by
  induction l with
  | nil => exact absurd rfl hne
  | cons c l ih =>
    have hc : c ≠ '/' := hl c (List.mem_cons_self _ _)
    simp only [List.cons_append, backtrack]
    by_cases hl0 : l = []
    · subst hl0
      rw [if_neg (by simp [hdd])]
      rfl
    · have hlen : dd < (l ++ o).length := by
        have := List.length_pos.2 hl0
        simp; omega
      rw [if_pos ⟨hlen, hc⟩]
      exact ih (fun x hx => hl x (List.mem_cons_of_mem _ hx)) hl0

theorem not_needsSlash_length (rooted : Bool) (o : List Char) (dd : Nat) (h : NF rooted o dd)
    (hn : ¬ NeedsSlash rooted o) : dd = o.length := by
  cases rooted
  · have h0 : o.length = 0 := by
      by_contra hne
      exact hn (Or.inr ⟨rfl, hne⟩)
    have := NF_dotdot_le false o dd h
    omega
  · have h1 : o.length = 1 := by
      by_contra hne
      exact hn (Or.inl ⟨rfl, hne⟩)
    rw [h1]
    exact (NF_rooted o dd h).1

theorem backtrack_push (rooted : Bool) (o : List Char) (dd : Nat) (s : List Char)
    (h : NF rooted o dd) (hs : SimpleSeg s) : backtrack dd (push rooted o s) = o := by
  have hrev : ∀ c ∈ s.reverse, c ≠ '/' := by
    intro c hc e
    subst e
    exact hs.2.1 (List.mem_reverse.1 hc)
  by_cases hn : NeedsSlash rooted o
  · rw [push_of_needsSlash _ _ _ hn]
    exact backtrack_append_slash dd _ o hrev (NF_dotdot_le rooted o dd h)
  · rw [push_of_not_needsSlash _ _ _ hn]
    exact backtrack_append_base dd _ o hrev (by simpa using hs.1)
      (not_needsSlash_length rooted o dd h hn)

theorem NF_length_of_not_lt (rooted : Bool) (o : List Char) (dd : Nat) (h : NF rooted o dd)
    (hlt : dd < o.length) : ∃ o' s, NF rooted o' dd ∧ SimpleSeg s ∧ o = push rooted o' s := by
  cases h with
  | init => cases rooted <;> simp [initState] at hlt
  | dots o' dd' _ _ _ => exact absurd hlt (lt_irrefl _)
  | seg o' _ s h' hs => exact ⟨o', s, h', hs, rfl⟩

theorem NF_elemStep (rooted : Bool) (o : List Char) (dd : Nat) (seg : List Char)
    (h : NF rooted o dd) (hseg : '/' ∉ seg) :
    NF rooted (elemStep rooted (o, dd) seg).1 (elemStep rooted (o, dd) seg).2 := by
  unfold elemStep
  by_cases h0 : seg = []
  · rw [if_pos h0]; exact h
  · rw [if_neg h0]
    by_cases h1 : seg = ['.']
    · rw [if_pos h1]; exact h
    · rw [if_neg h1]
      by_cases h2 : seg = ['.', '.']
      · rw [if_pos h2]
        by_cases hlt : dd < o.length
        · simp only [if_pos hlt]
          obtain ⟨o', s, h', hs, rfl⟩ := NF_length_of_not_lt rooted o dd h hlt
          rw [backtrack_push rooted o' dd s h' hs]
          exact h'
        · simp only [if_neg hlt]
          by_cases hr : rooted = true
          · simp only [if_pos hr]; exact h
          · simp only [if_neg hr]
            have hr' : rooted = false := by simpa using hr
            have hdd : dd = o.length := le_antisymm (NF_dotdot_le rooted o dd h) (not_lt.1 hlt)
            exact NF.dots o dd hr' h hdd
      · rw [if_neg h2]
        exact NF.seg o dd seg h ⟨h0, hseg, h1, h2⟩

theorem NF_foldl (rooted : Bool) (segs : List (List Char)) (hsegs : ∀ s ∈ segs, '/' ∉ s)
    (st : List Char × Nat) (h : NF rooted st.1 st.2) :
    NF rooted (segs.foldl (elemStep rooted) st).1 (segs.foldl (elemStep rooted) st).2 := by
  induction segs generalizing st with
  | nil => exact h
  | cons s segs ih =>
    simp only [List.foldl_cons]
    exact ih (fun t ht => hsegs t (List.mem_cons_of_mem _ ht)) _
      (NF_elemStep rooted st.1 st.2 s h (hsegs s (List.mem_cons_self _ _)))

theorem NF_run (x : List Char) : NF (isRooted x) (run x).1 (run x).2 :=
  NF_foldl _ _ (splitSlash_noSlash x) _ NF.init

theorem finish_of_ne_nil (o : List Char) (h : o ≠ []) : finish o = o.reverse := by
  unfold finish
  rw [if_neg (by simpa using h)]

theorem needsSlash_ne_nil (rooted : Bool) (o : List Char) (dd : Nat) (h : NF rooted o dd)
    (hn : NeedsSlash rooted o) : o ≠ [] := by
  cases rooted
  · rcases hn with ⟨hr, _⟩ | ⟨_, h0⟩
    · exact absurd hr (by decide)
    · intro e; exact h0 (by simp [e])
  · exact (NF_rooted o dd h).2.1

/-- What a buffer without a real element is, when no slash goes before the
next element: the root, or nothing. -/
theorem not_needsSlash_eq (rooted : Bool) (o : List Char) (dd : Nat) (h : NF rooted o dd)
    (hn : ¬ NeedsSlash rooted o) : (o, dd) = initState rooted := by
  have hdd := not_needsSlash_length rooted o dd h hn
  cases rooted
  · have h0 : o.length = 0 := by
      by_contra hne
      exact hn (Or.inr ⟨rfl, hne⟩)
    have : o = [] := List.length_eq_zero.1 h0
    subst this
    simp [initState, hdd]
  · have h1 : o.length = 1 := by
      by_contra hne
      exact hn (Or.inl ⟨rfl, hne⟩)
    have := (NF_rooted o dd h).2.2 h1
    subst this
    simp [initState, hdd]

/-- Cleaning what a buffer holds fills the buffer again. -/
theorem NF_roundtrip (rooted : Bool) (o : List Char) (dd : Nat) (h : NF rooted o dd) :
    (splitSlash (finish o)).foldl (elemStep rooted) (initState rooted) = (o, dd) := by
  induction h with
  | init => cases rooted <;> simp [initState, finish, splitSlash, elemStep]
  | dots o dd hr h' hdd ih =>
    subst hr
    by_cases ho : o = []
    · subst ho
      have := NF_unrooted_nil dd h'
      simp [finish, splitSlash, elemStep, initState]
    · have hpos : 0 < o.length := List.length_pos.2 ho
      rw [finish_of_ne_nil o ho] at ih
      rw [finish_of_ne_nil _ (by simp), if_pos hpos]
      have hrev : ('.' :: '.' :: '/' :: o).reverse = o.reverse ++ '/' :: ['.', '.'] := by simp
      rw [hrev, splitSlash_append, List.foldl_append, ih,
        splitSlash_of_noSlash ['.', '.'] (by decide)]
      simp [elemStep, hdd, hpos]
  | seg o dd s h' hs ih =>
    rw [finish_of_ne_nil _ (push_ne_nil _ _ _ hs.1)]
    by_cases hn : NeedsSlash rooted o
    · have ho := needsSlash_ne_nil rooted o dd h' hn
      rw [finish_of_ne_nil o ho] at ih
      rw [push_of_needsSlash _ _ _ hn]
      have hrev : (s.reverse ++ '/' :: o).reverse = o.reverse ++ '/' :: s := by simp
      rw [hrev, splitSlash_append, List.foldl_append, ih, splitSlash_of_noSlash s hs.2.1]
      simp only [List.foldl_cons, List.foldl_nil]
      rw [elemStep_simple _ _ _ hs, push_of_needsSlash _ _ _ hn]
    · have hinit := not_needsSlash_eq rooted o dd h' hn
      have hpush : push rooted o s = push rooted (initState rooted).1 s := by
        rw [← hinit]
      have hdd : dd = (initState rooted).2 := by rw [← hinit]
      rw [hpush, hdd]
      cases rooted
      · have : push false (initState false).1 s = s.reverse := by
          simp [push, initState]
        rw [this, List.reverse_reverse, splitSlash_of_noSlash s hs.2.1]
        simp only [List.foldl_cons, List.foldl_nil]
        rw [elemStep_simple _ _ _ hs]
        simp [push, initState]
      · have : push true (initState true).1 s = s.reverse ++ ['/'] := by
          simp [push, initState]
        rw [this]
        have hrev : (s.reverse ++ ['/']).reverse = [] ++ '/' :: s := by simp
        rw [hrev, splitSlash_append, splitSlash_of_noSlash s hs.2.1]
        simp only [splitSlash, List.foldl_append, List.foldl_cons, List.foldl_nil, elemStep_nil]
        rw [elemStep_simple _ _ _ hs]
        simp [push, initState]

theorem isRooted_simple (s : List Char) (hs : SimpleSeg s) : isRooted s = false := by
  cases s with
  | nil => rfl
  | cons c s =>
    have : ¬ c = '/' := fun e => hs.2.1 (by simp [e])
    simp [isRooted, this]

/-- What `Clean` returns is rooted exactly when the path is. -/
theorem NF_isRooted_finish (rooted : Bool) (o : List Char) (dd : Nat) (h : NF rooted o dd) :
    isRooted (finish o) = rooted := by
  induction h with
  | init => cases rooted <;> simp [initState, finish, isRooted]
  | dots o dd hr h' hdd ih =>
    subst hr
    by_cases ho : o = []
    · subst ho
      simp [finish, isRooted]
    · have hpos : 0 < o.length := List.length_pos.2 ho
      rw [finish_of_ne_nil o ho] at ih
      rw [finish_of_ne_nil _ (by simp), if_pos hpos]
      have hrev : ('.' :: '.' :: '/' :: o).reverse = o.reverse ++ '/' :: ['.', '.'] := by simp
      rw [hrev, isRooted_append _ _ (by simpa using ho), ih]
  | seg o dd s h' hs ih =>
    rw [finish_of_ne_nil _ (push_ne_nil _ _ _ hs.1)]
    by_cases hn : NeedsSlash rooted o
    · have ho := needsSlash_ne_nil rooted o dd h' hn
      rw [finish_of_ne_nil o ho] at ih
      rw [push_of_needsSlash _ _ _ hn]
      have hrev : (s.reverse ++ '/' :: o).reverse = o.reverse ++ '/' :: s := by simp
      rw [hrev, isRooted_append _ _ (by simpa using ho), ih]
    · have hinit := not_needsSlash_eq rooted o dd h' hn
      have hpush : push rooted o s = push rooted (initState rooted).1 s := by
        rw [← hinit]
      rw [hpush]
      cases rooted
      · have : push false (initState false).1 s = s.reverse := by
          simp [push, initState]
        rw [this, List.reverse_reverse]
        exact isRooted_simple s hs
      · have : push true (initState true).1 s = s.reverse ++ ['/'] := by
          simp [push, initState]
        rw [this]
        simp [isRooted]

theorem finish_ne_nil (o : List Char) : finish o ≠ [] := by
  unfold finish
  split
  · simp
  · rename_i h
    simpa using h

theorem cleanChars_ne_nil (x : List Char) : cleanChars x ≠ [] := by
  cases x with
  | nil => simp [cleanChars]
  | cons c r =>
    rw [cleanChars_eq _ (List.cons_ne_nil _ _)]
    exact finish_ne_nil _

theorem cleanChars_eq_finish_run (x : List Char) (hx : x ≠ []) :
    cleanChars x = finish (run x).1 := cleanChars_eq x hx

/-- The buffer of `Clean` after a cleaned path is the buffer after the path
itself. -/
theorem run_cleanChars (x : List Char) (hx : x ≠ []) :
    isRooted (cleanChars x) = isRooted x ∧ run (cleanChars x) = run x := by
  have hnf := NF_run x
  have hr := NF_isRooted_finish _ _ _ hnf
  rw [← cleanChars_eq_finish_run x hx] at hr
  refine ⟨hr, ?_⟩
  have := NF_roundtrip _ _ _ hnf
  rw [← cleanChars_eq_finish_run x hx] at this
  unfold run
  rw [hr]
  exact this

/-- Cleaning a path first changes nothing when real elements follow:
`Clean(Clean(x) + "/t1/.../tk") = Clean(x + "/t1/.../tk")`. -/
theorem cleanChars_cleanChars_append (x t : List Char) (ts : List (List Char)) (hx : x ≠ [])
    (hts : ∀ u ∈ t :: ts, SimpleSeg u) :
    cleanChars (cleanChars x ++ tailPath (t :: ts)) = cleanChars (x ++ tailPath (t :: ts)) := by
  rw [cleanChars_append_tailPath _ t ts (cleanChars_ne_nil x) hts,
    cleanChars_append_tailPath _ t ts hx hts, (run_cleanChars x hx).1, (run_cleanChars x hx).2]

/-- A further real element is appended as it is:
`Clean(x + "/t1/.../tk/g") = Clean(x + "/t1/.../tk") + "/g"`. -/
theorem cleanChars_append_last (x t g : List Char) (ts : List (List Char)) (hx : x ≠ [])
    (hts : ∀ u ∈ t :: ts, SimpleSeg u) (hg : SimpleSeg g) :
    cleanChars (x ++ tailPath (t :: (ts ++ [g]))) =
      cleanChars (x ++ tailPath (t :: ts)) ++ '/' :: g := by
  have hts' : ∀ u ∈ t :: (ts ++ [g]), SimpleSeg u := by
    intro u hu
    rcases List.mem_cons.1 hu with h | h
    · exact hts u (h ▸ List.mem_cons_self _ _)
    · rcases List.mem_append.1 h with h | h
      · exact hts u (List.mem_cons_of_mem _ h)
      · rw [List.mem_singleton.1 h]; exact hg
  rw [cleanChars_append_tailPath _ t _ hx hts', cleanChars_append_tailPath _ t ts hx hts]
  have : tailPath (ts ++ [g]) = tailPath ts ++ '/' :: g := by
    induction ts with
    | nil => simp [tailPath]
    | cons a ts ih =>
      have ih' := ih (fun u hu => by
        rcases List.mem_cons.1 hu with h | h
        · exact hts u (h ▸ List.mem_cons_self _ _)
        · exact hts u (List.mem_cons_of_mem _ (List.mem_cons_of_mem _ h)))
        (fun u hu => by
          rcases List.mem_cons.1 hu with h | h
          · exact hts u (h ▸ List.mem_cons_self _ _)
          · rcases List.mem_append.1 h with h | h
            · exact hts u (List.mem_cons_of_mem _ (List.mem_cons_of_mem _ h))
            · rw [List.mem_singleton.1 h]; exact hg)
      simp [tailPath, ih']
  rw [this]
  simp

/-- A clean path other than "/" and "." followed by real elements is clean. -/
theorem cleanChars_clean_append (x t : List Char) (ts : List (List Char))
    (hclean : cleanChars x = x) (hroot : x ≠ ['/']) (hdot : x ≠ ['.'])
    (hts : ∀ u ∈ t :: ts, SimpleSeg u) :
    cleanChars (x ++ tailPath (t :: ts)) = x ++ tailPath (t :: ts) := by
  have hx : x ≠ [] := by
    intro e
    rw [e] at hclean
    simp [cleanChars] at hclean
  rw [cleanChars_append_tailPath x t ts hx hts]
  have hfin : finish (run x).1 = x := by rw [← cleanChars_eq_finish_run x hx]; exact hclean
  have ho : (run x).1 ≠ [] := by
    intro e
    rw [e] at hfin
    exact hdot (by rw [← hfin]; rfl)
  rw [finish_of_ne_nil _ ho] at hfin
  have hn : NeedsSlash (isRooted x) (run x).1 := by
    cases hr : isRooted x
    · right
      exact ⟨rfl, by simpa using ho⟩
    · left
      refine ⟨rfl, ?_⟩
      intro hlen
      have h1 := (NF_rooted (run x).1 (run x).2 (hr ▸ NF_run x)).2.2 hlen
      rw [h1] at hfin
      exact hroot (by rw [← hfin]; rfl)
  rw [push_of_needsSlash _ _ _ hn]
  simp [tailPath, hfin]

/-! ### `Join` -/

theorem joinBuf_of_ne_nil (es : List String) (buf : List Char) (h : buf ≠ []) :
    joinBuf es buf = buf ++ tailPath (es.map String.data) := by
  induction es generalizing buf with
  | nil => simp [joinBuf, tailPath]
  | cons e es ih =>
    have hpos : 0 < buf.length := List.length_pos.2 h
    simp only [joinBuf, hpos, true_or, if_true]
    rw [ih _ (by simp [h])]
    simp [tailPath]

theorem joinBuf_append (es fs : List String) (buf : List Char) :
    joinBuf (es ++ fs) buf = joinBuf fs (joinBuf es buf) := by
  induction es generalizing buf with
  | nil => rfl
  | cons e es ih =>
    simp only [List.cons_append, joinBuf]
    split <;> exact ih _

theorem data_ne_nil {e : String} (he : e ≠ "") : e.data ≠ [] := by
  intro h
  exact he (String.ext h)

theorem Join_cons_of_ne (e : String) (es : List String) (he : e ≠ "") :
    Join (e :: es) = Clean ⟨e.data ++ tailPath (es.map String.data)⟩ := by
  have hd := data_ne_nil he
  have hlen : 0 < e.length := List.length_pos.2 hd
  unfold Join
  rw [if_neg (by simp; omega)]
  have : joinBuf (e :: es) [] = joinBuf es e.data := by
    simp [joinBuf, he]
  rw [this, joinBuf_of_ne_nil _ _ hd]

theorem Clean_ne_empty (p : String) : Clean p ≠ "" := by
  intro h
  have := congrArg String.data h
  exact cleanChars_ne_nil p.data this

theorem joinBuf_nil_iff (S n : String) : joinBuf [S, n] [] = [] ↔ S = "" ∧ n = "" := by
  by_cases hS : S = ""
  · by_cases hn : n = ""
    · subst hS hn; simp [joinBuf]
    · subst hS
      simp [joinBuf, hn, data_ne_nil hn]
  · have := data_ne_nil hS
    have hpos : 0 < S.length := List.length_pos.2 this
    simp [joinBuf, hS, this, hpos]

theorem Join_pair (S n : String) (h : ¬ (S = "" ∧ n = "")) :
    Join [S, n] = Clean ⟨joinBuf [S, n] []⟩ := by
  unfold Join
  rw [if_neg]
  intro hsum
  apply h
  simp only [List.map_cons, List.map_nil, List.sum_cons, List.sum_nil, Nat.add_zero] at hsum
  have h1 : S.length = 0 := by omega
  have h2 : n.length = 0 := by omega
  exact ⟨String.ext (List.length_eq_zero.1 h1), String.ext (List.length_eq_zero.1 h2)⟩

/-- A path under the directory `Join [S, n]`: the directory is cleaned on its
own first, which changes nothing in the end. -/
theorem Join_under (S n t : String) (ts : List String) (h : ¬ (S = "" ∧ n = ""))
    (hts : ∀ u ∈ t :: ts, SimpleSeg u.data) :
    Join (Join [S, n] :: t :: ts) =
      Clean ⟨joinBuf [S, n] [] ++ tailPath ((t :: ts).map String.data)⟩ := by
  have hx : joinBuf [S, n] [] ≠ [] := fun e => h ((joinBuf_nil_iff S n).1 e)
  rw [Join_pair S n h, Join_cons_of_ne _ _ (Clean_ne_empty _)]
  unfold Clean
  have hts' : ∀ u ∈ t.data :: ts.map String.data, SimpleSeg u := by
    intro u hu
    rcases List.mem_cons.1 hu with h1 | h1
    · rw [h1]; exact hts t (List.mem_cons_self _ _)
    · obtain ⟨v, hv, rfl⟩ := List.mem_map.1 h1
      exact hts v (List.mem_cons_of_mem _ hv)
  simp only [List.map_cons]
  rw [cleanChars_cleanChars_append _ _ _ hx hts']

end GoPath

/-! ## The closed form of the generated slice -/

namespace Fabric

open GoPath

theorem set_length_append {α : Type} (pre : List α) (x y : α) (r : List α) :
    (pre ++ x :: r).set pre.length y = pre ++ y :: r := by
  induction pre with
  | nil => rfl
  | cons a pre ih => simp [List.set, ih]

theorem setSlot_append (pre : List (Option ServiceDefinition)) (x : Option ServiceDefinition)
    (r : List (Option ServiceDefinition)) (d : ServiceDefinition) :
    setSlot (pre ++ x :: r) pre.length d = .ok (pre ++ some d :: r) := by
  unfold setSlot
  rw [if_pos (by simp), set_length_append]

theorem connectorLoop_fill (ms : List Member) :
    ∀ (i : Nat) (pre : List (Option ServiceDefinition)), pre.length = i + 3 →
      connectorLoop ms i (pre ++ List.replicate ms.length none) =
        .ok (pre ++ ms.map (fun m => some (connectorDefinition m))) := by
  induction ms with
  | nil => intro i pre _; simp [connectorLoop]
  | cons m ms ih =>
    intro i pre hpre
    have hset := setSlot_append pre none (List.replicate ms.length none) (connectorDefinition m)
    rw [hpre] at hset
    simp only [List.length_cons, List.replicate_succ, connectorLoop, hset]
    have h := ih (i + 1) (pre ++ [some (connectorDefinition m)]) (by simp [hpre])
    simpa using h

/-- The generator never panics on a non-nil stack and returns `topology`, every
slot filled. -/
theorem generate_eq (StacksDir : String) (s : Stack) :
    GenerateDockerServiceDefinitions StacksDir (some s) =
      .ok ((topology StacksDir s).map some) := by
  unfold GenerateDockerServiceDefinitions
  have h0 := setSlot_append [] none (List.replicate (s.Members.length + 2) none) caDefinition
  have h1 := setSlot_append [some caDefinition] none (List.replicate (s.Members.length + 1) none)
    (ordererDefinition (Join [StacksDir, s.Name]))
  have h2 := setSlot_append [some caDefinition, some (ordererDefinition (Join [StacksDir, s.Name]))]
    none (List.replicate s.Members.length none) (peerDefinition (Join [StacksDir, s.Name]))
  simp only [List.nil_append, List.length_nil, List.length_cons, List.cons_append,
    List.length_singleton, List.replicate_succ, Nat.zero_add, Nat.reduceAdd] at h0 h1 h2
  have hfill := connectorLoop_fill s.Members 0
    [some caDefinition, some (ordererDefinition (Join [StacksDir, s.Name])),
      some (peerDefinition (Join [StacksDir, s.Name]))] rfl
  simp only [List.replicate_succ, h0, h1, h2]
  simp only [List.cons_append, List.nil_append] at hfill
  rw [hfill]
  simp [topology, List.map_map, Function.comp_def]

end Fabric

/-! ## The service names -/

namespace Fabric

open GoPath

theorem fabconnect_injective (a b : String) (h : "fabconnect_" ++ a = "fabconnect_" ++ b) :
    a = b := by
  have h1 := congrArg String.data h
  rw [String.data_append, String.data_append] at h1
  exact String.ext (List.append_cancel_left h1)

theorem fabconnect_ne_infrastructure (a : String) :
    "fabconnect_" ++ a ≠ "ca_org1" ∧ "fabconnect_" ++ a ≠ "orderer.example.com" ∧
      "fabconnect_" ++ a ≠ "peer0.org1.example.com" := by
  refine ⟨?_, ?_, ?_⟩ <;> intro h <;> have h1 := congrArg String.data h <;>
    rw [String.data_append] at h1 <;>
    have h2 := congrArg List.head? h1 <;> simp at h2

theorem topology_names (StacksDir : String) (s : Stack) :
    (topology StacksDir s).map ServiceDefinition.ServiceName =
      ["ca_org1", "orderer.example.com", "peer0.org1.example.com"] ++
        s.Members.map (fun m => "fabconnect_" ++ m.ID) := by
  simp [topology, caDefinition, ordererDefinition, peerDefinition, connectorDefinition,
    Function.comp_def]

end Fabric

/-! ## The volume bindings -/

namespace Fabric

open GoPath

theorem orderer_volumes (stackDir : String) :
    volumesOf (ordererDefinition stackDir) =
      [ Join [stackDir, "blockchain", "genesis_block.pb"] ++
          ":/var/hyperledger/orderer/orderer.genesis.block",
        Join [stackDir, "blockchain", "cryptogen", "ordererOrganizations", "example.com",
          "orderers", "orderer.example.com", "msp"] ++ ":/var/hyperledger/orderer/msp",
        Join [stackDir, "blockchain", "cryptogen", "ordererOrganizations", "example.com",
          "orderers", "orderer.example.com", "tls"] ++ ":/var/hyperledger/orderer/tls",
        "orderer.example.com:/var/hyperledger/production/orderer" ] := rfl

theorem peer_volumes (stackDir : String) :
    volumesOf (peerDefinition stackDir) =
      [ Join [stackDir, "blockchain", "cryptogen", "peerOrganizations", "org1.example.com",
          "peers", "peer0.org1.example.com", "msp"] ++ ":/etc/hyperledger/fabric/msp",
        Join [stackDir, "blockchain", "cryptogen", "peerOrganizations", "org1.example.com",
          "peers", "peer0.org1.example.com", "tls"] ++ ":/etc/hyperledger/fabric/tls",
        "peer0.org1.example.com:/var/hyperledger/production" ] := rfl

/-- The generator returns the three infrastructure definitions in front of the
connectors. -/
theorem generate_infrastructure (StacksDir : String) (s : Stack) :
    GenerateDockerServiceDefinitions StacksDir (some s) =
      .ok (some caDefinition :: some (ordererDefinition (Join [StacksDir, s.Name])) ::
        some (peerDefinition (Join [StacksDir, s.Name])) ::
        (s.Members.map connectorDefinition).map some) := by
  rw [generate_eq]
  rfl

theorem joinBuf_pair (S n : String) (hS : S ≠ "") :
    joinBuf [S, n] [] = S.data ++ tailPath [n.data] := by
  have hd := data_ne_nil hS
  have hpos : 0 < S.length := List.length_pos.2 hd
  simp [joinBuf, hS, hpos, tailPath]

/-- Below a non-empty stacks root the joined path is the cleaned path of the
layout. -/
theorem join_layout (S n suffix t : String) (ts : List String) (hS : S ≠ "")
    (hts : ∀ u ∈ t :: ts, SimpleSeg u.data)
    (hsuf : tailPath ((t :: ts).map String.data) = ("/blockchain/" ++ suffix).data) :
    Join (Join [S, n] :: t :: ts) = Clean (layoutPath S n suffix) := by
  rw [Join_under S n t ts (fun h => hS h.1) hts, hsuf, joinBuf_pair S n hS]
  congr 1
  apply String.ext
  simp [layoutPath, String.data_append, tailPath]

/-- Below a clean stacks root and for a name that is one path element the path
of the layout is clean. -/
theorem layout_clean (S n suffix t : String) (ts : List String) (hclean : Clean S = S)
    (hroot : S ≠ "/") (hdot : S ≠ ".") (hn : IsPathElement n)
    (hts : ∀ u ∈ t :: ts, SimpleSeg u.data)
    (hsuf : tailPath ((t :: ts).map String.data) = ("/blockchain/" ++ suffix).data) :
    Clean (layoutPath S n suffix) = layoutPath S n suffix := by
  have hdata : (layoutPath S n suffix).data =
      S.data ++ tailPath (n.data :: (t :: ts).map String.data) := by
    have : tailPath (n.data :: (t :: ts).map String.data) =
        '/' :: n.data ++ tailPath ((t :: ts).map String.data) := rfl
    rw [this, hsuf]
    simp [layoutPath, String.data_append]
  apply String.ext
  unfold Clean
  rw [hdata]
  apply cleanChars_clean_append
  · exact congrArg String.data hclean
  · intro h; exact hroot (String.ext h)
  · intro h; exact hdot (String.ext h)
  · intro u hu
    rcases List.mem_cons.1 hu with h | h
    · rw [h]; exact hn
    · obtain ⟨v, hv, rfl⟩ := List.mem_map.1 h
      exact hts v hv

/-- The genesis block under the directory of the stack is the file
`genesis_block.pb` of the joined directory `blockchain`. -/
theorem join_genesis (S n : String) :
    Join [Join [S, n], "blockchain", "genesis_block.pb"] =
      Join [S, n, "blockchain"] ++ "/genesis_block.pb" := by
  by_cases h : S = "" ∧ n = ""
  · obtain ⟨rfl, rfl⟩ := h
    decide
  · have hx : joinBuf [S, n] [] ≠ [] := fun e => h ((joinBuf_nil_iff S n).1 e)
    rw [Join_under S n "blockchain" ["genesis_block.pb"] h (by decide)]
    have hbuf : joinBuf [S, n, "blockchain"] [] =
        joinBuf [S, n] [] ++ tailPath ["blockchain".data] := by
      have := joinBuf_append [S, n] ["blockchain"] []
      simp only [List.cons_append, List.nil_append] at this
      rw [this, joinBuf_of_ne_nil _ _ hx]
      rfl
    have hjoin : Join [S, n, "blockchain"] =
        Clean ⟨joinBuf [S, n] [] ++ tailPath ["blockchain".data]⟩ := by
      unfold Join
      rw [if_neg, hbuf]
      simp only [List.map_cons, List.map_nil, List.sum_cons, List.sum_nil]
      have : "blockchain".length = 10 := by decide
      omega
    rw [hjoin]
    apply String.ext
    rw [String.data_append]
    unfold Clean
    exact cleanChars_append_last _ "blockchain".data "genesis_block.pb".data [] hx
      (by decide) (by decide)

/-- Below a clean stacks root and for a name that is one path element the
volumes are bound from the paths of the layout, as text. -/
theorem volumes_layout_clean (S n : String) (hclean : Clean S = S) (hroot : S ≠ "/")
    (hdot : S ≠ ".") (hname : IsPathElement n) :
    volumesOf (ordererDefinition (Join [S, n])) = ordererBinds (layoutPath S n) ∧
    volumesOf (peerDefinition (Join [S, n])) = peerBinds (layoutPath S n) := by
  have hS : S ≠ "" := by
    intro h
    rw [h] at hclean
    exact absurd hclean (by decide)
  rw [orderer_volumes, peer_volumes]
  unfold ordererBinds peerBinds
  rw [join_layout S n "genesis_block.pb" _ _ hS (by decide) (by decide),
    join_layout S n
      "cryptogen/ordererOrganizations/example.com/orderers/orderer.example.com/msp" _ _ hS
      (by decide) (by decide),
    join_layout S n
      "cryptogen/ordererOrganizations/example.com/orderers/orderer.example.com/tls" _ _ hS
      (by decide) (by decide),
    join_layout S n
      "cryptogen/peerOrganizations/org1.example.com/peers/peer0.org1.example.com/msp" _ _ hS
      (by decide) (by decide),
    join_layout S n
      "cryptogen/peerOrganizations/org1.example.com/peers/peer0.org1.example.com/tls" _ _ hS
      (by decide) (by decide)]
  rw [layout_clean S n "genesis_block.pb" "blockchain" ["genesis_block.pb"]
      hclean hroot hdot hname (by decide) (by decide),
    layout_clean S n
      "cryptogen/ordererOrganizations/example.com/orderers/orderer.example.com/msp" "blockchain"
      ["cryptogen", "ordererOrganizations", "example.com", "orderers", "orderer.example.com",
        "msp"] hclean hroot hdot hname (by decide) (by decide),
    layout_clean S n
      "cryptogen/ordererOrganizations/example.com/orderers/orderer.example.com/tls" "blockchain"
      ["cryptogen", "ordererOrganizations", "example.com", "orderers", "orderer.example.com",
        "tls"] hclean hroot hdot hname (by decide) (by decide),
    layout_clean S n
      "cryptogen/peerOrganizations/org1.example.com/peers/peer0.org1.example.com/msp"
      "blockchain"
      ["cryptogen", "peerOrganizations", "org1.example.com", "peers", "peer0.org1.example.com",
        "msp"] hclean hroot hdot hname (by decide) (by decide),
    layout_clean S n
      "cryptogen/peerOrganizations/org1.example.com/peers/peer0.org1.example.com/tls"
      "blockchain"
      ["cryptogen", "peerOrganizations", "org1.example.com", "peers", "peer0.org1.example.com",
        "tls"] hclean hroot hdot hname (by decide) (by decide)]
  exact ⟨rfl, rfl⟩

/-- Below a clean stacks root the directory of a stack whose name is one path
element is the root, a slash and the name. -/
theorem join_pair_clean (S n : String) (hclean : Clean S = S) (hroot : S ≠ "/")
    (hdot : S ≠ ".") (hname : IsPathElement n) : Join [S, n] = S ++ "/" ++ n := by
  have hS : S ≠ "" := by
    intro h
    rw [h] at hclean
    exact absurd hclean (by decide)
  rw [Join_cons_of_ne S [n] hS]
  apply String.ext
  unfold Clean
  simp only [List.map_cons, List.map_nil]
  rw [cleanChars_clean_append S.data n.data [] (congrArg String.data hclean)
    (fun h => hroot (String.ext h)) (fun h => hdot (String.ext h))
    (fun u hu => by rw [List.mem_singleton.1 hu]; exact hname)]
  simp [String.data_append, tailPath]

theorem takeWhile_append_slash (n r : List Char) (hn : '/' ∉ n) :
    (n ++ '/' :: r).takeWhile notSlash = n := by
  induction n with
  | nil => exact takeWhile_slash r
  | cons c n ih =>
    simp only [List.mem_cons, not_or] at hn
    have hc : ¬ c = '/' := fun e => hn.1 e.symm
    rw [List.cons_append, takeWhile_of_ne hc, ih hn.2]

/-- Two names that are one path element each and have a path of the layout in
common are the same name. -/
theorem layout_injective (S n1 n2 suffix1 suffix2 : String) (h1 : IsPathElement n1)
    (h2 : IsPathElement n2) (h : layoutPath S n1 suffix1 = layoutPath S n2 suffix2) :
    n1 = n2 := by
  have hd := congrArg String.data h
  have e1 : ∀ n suffix : String, (layoutPath S n suffix).data =
      (S.data ++ ['/']) ++ (n.data ++ '/' :: ("blockchain/" ++ suffix).data) := by
    intro n suffix
    simp [layoutPath, String.data_append]
  rw [e1, e1] at hd
  have hd' := congrArg (List.takeWhile notSlash) (List.append_cancel_left hd)
  rw [takeWhile_append_slash _ _ h1.2.1, takeWhile_append_slash _ _ h2.2.1] at hd'
  exact String.ext hd'

/-- A path joined below the directory of a stack is absolute when the stacks
root is. -/
theorem join_under_rooted (S n t : String) (ts : List String) (hS : IsAbsolute S)
    (hts : ∀ u ∈ t :: ts, SimpleSeg u.data) :
    IsAbsolute (Join (Join [S, n] :: t :: ts)) := by
  have hne : S ≠ "" := by
    intro h
    rw [h] at hS
    exact absurd hS (by decide)
  have hd := data_ne_nil hne
  unfold IsAbsolute at hS ⊢
  rw [Join_under S n t ts (fun h => hne h.1) hts, joinBuf_pair S n hne]
  unfold Clean
  have hx : S.data ++ tailPath [n.data] ++ tailPath ((t :: ts).map String.data) ≠ [] := by
    simp [hd]
  rw [(run_cleanChars _ hx).1, List.append_assoc, isRooted_append _ _ hd]
  exact hS

/-- A binding from an absolute host path is not a named volume. -/
theorem isNamedVolume_of_absolute (host target : String) (h : IsAbsolute host) :
    isNamedVolume (host ++ target) = false := by
  unfold IsAbsolute at h
  unfold isNamedVolume bindingSource
  rw [String.data_append]
  cases hd : host.data with
  | nil => rw [hd] at h; exact absurd h (by decide)
  | cons c r =>
    rw [hd] at h
    have hc : c = '/' := by simpa [isRooted] using h
    subst hc
    simp [List.takeWhile_cons]

/-- A real path element is clean. -/
theorem cleanChars_simple (s : List Char) (hs : SimpleSeg s) : cleanChars s = s := by
  rw [cleanChars_eq s hs.1, isRooted_simple s hs, splitSlash_of_noSlash s hs.2.1]
  simp only [List.foldl_cons, List.foldl_nil]
  rw [elemStep_simple _ _ _ hs]
  simp [initState, push, finish, hs.1]

theorem reverse_push (rooted : Bool) (out s : List Char) :
    (push rooted out s).reverse = (push rooted out []).reverse ++ s := by
  simp [push]

/-- The directory of a stack whose name is one path element is a prefix fixed
by the stacks root followed by the name, and a path joined below it is that
directory followed by the joined elements. -/
theorem join_prefix (S : String) :
    ∃ P : List Char, ∀ n : String, IsPathElement n →
      (Join [S, n]).data = P ++ n.data ∧
      ∀ (t : String) (ts : List String), (∀ u ∈ t :: ts, SimpleSeg u.data) →
        (Join (Join [S, n] :: t :: ts)).data =
          P ++ n.data ++ tailPath ((t :: ts).map String.data) := by
  by_cases hS : S = ""
  · subst hS
    refine ⟨[], fun n hn => ?_⟩
    have hne : n ≠ "" := by
      intro h
      rw [h] at hn
      exact hn.1 rfl
    have hbuf : joinBuf ["", n] [] = n.data := by
      simp [joinBuf, hne]
    have hnot : ¬ (("" : String) = "" ∧ n = "") := fun h => hne h.2
    have hclean := cleanChars_simple n.data hn
    refine ⟨?_, fun t ts hts => ?_⟩
    · rw [Join_pair "" n hnot, hbuf]
      simp [Clean, hclean]
    · rw [Join_under "" n t ts hnot hts, hbuf]
      unfold Clean
      simp only [List.map_cons, List.nil_append]
      apply cleanChars_clean_append n.data t.data (ts.map String.data) hclean
      · intro h
        exact hn.2.1 (by rw [h]; simp)
      · exact hn.2.2.1
      · intro u hu
        rcases List.mem_cons.1 hu with h | h
        · rw [h]; exact hts t (List.mem_cons_self _ _)
        · obtain ⟨v, hv, rfl⟩ := List.mem_map.1 h
          exact hts v (List.mem_cons_of_mem _ hv)
  · have hd := data_ne_nil hS
    refine ⟨(push (isRooted S.data) (run S.data).1 []).reverse, fun n hn => ?_⟩
    refine ⟨?_, fun t ts hts => ?_⟩
    · rw [Join_cons_of_ne S [n] hS]
      unfold Clean
      simp only [List.map_cons, List.map_nil]
      rw [cleanChars_append_tailPath S.data n.data [] hd
        (fun u hu => by rw [List.mem_singleton.1 hu]; exact hn), reverse_push]
      simp [tailPath]
    · rw [Join_under S n t ts (fun h => hS h.1) hts, joinBuf_pair S n hS]
      unfold Clean
      have hcat : S.data ++ tailPath [n.data] ++ tailPath ((t :: ts).map String.data) =
          S.data ++ tailPath (n.data :: (t :: ts).map String.data) := by
        simp [tailPath]
      simp only []
      rw [hcat, cleanChars_append_tailPath S.data n.data _ hd, reverse_push]
      intro u hu
      rcases List.mem_cons.1 hu with h | h
      · rw [h]; exact hn
      · obtain ⟨v, hv, rfl⟩ := List.mem_map.1 h
        exact hts v hv

/-- The host paths joined below the directories of two stacks with distinct
names, one path element each, are distinct, whatever the stacks root. -/
theorem hostUnder_ne (S n1 n2 suffix1 suffix2 : String) (h1 : IsPathElement n1)
    (h2 : IsPathElement n2) (hs1 : ∀ seg ∈ splitSlash suffix1.data, SimpleSeg seg)
    (hs2 : ∀ seg ∈ splitSlash suffix2.data, SimpleSeg seg) (hne : n1 ≠ n2) :
    hostUnder (Join [S, n1]) suffix1 ≠ hostUnder (Join [S, n2]) suffix2 := by
  obtain ⟨P, hP⟩ := join_prefix S
  have hseg : ∀ suffix : String, (∀ seg ∈ splitSlash suffix.data, SimpleSeg seg) →
      ∀ u ∈ "blockchain" :: (splitSlash suffix.data).map String.mk, SimpleSeg u.data := by
    intro suffix hs u hu
    rcases List.mem_cons.1 hu with h | h
    · rw [h]; decide
    · obtain ⟨v, hv, rfl⟩ := List.mem_map.1 h
      exact hs v hv
  intro h
  have hd := congrArg String.data h
  unfold hostUnder at hd
  rw [(hP n1 h1).2 _ _ (hseg suffix1 hs1), (hP n2 h2).2 _ _ (hseg suffix2 hs2)] at hd
  simp only [List.map_cons, tailPath, List.append_assoc, List.cons_append] at hd
  have hd' := congrArg (List.takeWhile notSlash) (List.append_cancel_left hd)
  rw [takeWhile_append_slash _ _ h1.2.1, takeWhile_append_slash _ _ h2.2.1] at hd'
  exact hne (String.ext hd')

theorem join_pair_ne (S n1 n2 : String) (h1 : IsPathElement n1) (h2 : IsPathElement n2)
    (hne : n1 ≠ n2) : Join [S, n1] ≠ Join [S, n2] := by
  obtain ⟨P, hP⟩ := join_prefix S
  intro h
  have hd := congrArg String.data h
  rw [(hP n1 h1).1, (hP n2 h2).1] at hd
  exact hne (String.ext (List.append_cancel_left hd))

theorem layoutEntries_simple :
    ∀ suffix ∈ layoutEntries, ∀ seg ∈ splitSlash suffix.data, SimpleSeg seg := by
  decide

/-- A path joined from a non-empty first element is absolute exactly when that
element is. -/
theorem join_cons_isRooted (sd t : String) (ts : List String) (hsd : sd ≠ "") :
    isRooted (Join (sd :: t :: ts)).data = isRooted sd.data := by
  have hd := data_ne_nil hsd
  rw [Join_cons_of_ne sd (t :: ts) hsd]
  unfold Clean
  have hx : sd.data ++ tailPath ((t :: ts).map String.data) ≠ [] := by simp [hd]
  rw [(run_cleanChars _ hx).1, isRooted_append _ _ hd]

theorem join_pair_absolute (S n : String) (h : IsAbsolute S) : IsAbsolute (Join [S, n]) := by
  have hne : S ≠ "" := by
    intro e
    rw [e] at h
    exact absurd h (by decide)
  have hd := data_ne_nil hne
  unfold IsAbsolute at h ⊢
  rw [Join_cons_of_ne S [n] hne]
  unfold Clean
  have hx : S.data ++ tailPath ([n].map String.data) ≠ [] := by simp [hd]
  rw [(run_cleanChars _ hx).1, isRooted_append _ _ hd]
  exact h

/-- A binding from a relative host path reads as a named volume. -/
theorem isNamedVolume_of_relative (host target : String) (hne : host ≠ "")
    (h : isRooted host.data = false) : isNamedVolume (host ++ target) = true := by
  unfold isNamedVolume bindingSource
  rw [String.data_append]
  cases hd : host.data with
  | nil => exact absurd (String.ext hd) hne
  | cons c r =>
    rw [hd] at h
    have hc : ¬ c = '/' := by simpa [isRooted] using h
    by_cases hcolon : c = ':'
    · simp [List.takeWhile_cons, hcolon]
    · simp [List.takeWhile_cons, hcolon, hc]

theorem not_readOnly_append (host target : String) (hlen : 3 ≤ target.length)
    (htarget : isReadOnlyBinding target = false) :
    isReadOnlyBinding (host ++ target) = false := by
  unfold isReadOnlyBinding at htarget ⊢
  rw [String.data_append, List.reverse_append,
    List.take_append_of_le_length (by simpa using hlen)]
  exact htarget

end Fabric

/-! ## Claims -/

namespace Fabric

open GoPath

/-- C1: for every stack with N members the generator returns exactly N+3
service definitions, none nil, named in order "ca_org1",
"orderer.example.com", "peer0.org1.example.com" and then, at index i+3, the
name "fabconnect_" followed by the identifier of member i; a stack "dev"
without members yields exactly 3 definitions, and with members a, b it yields
5 whose 4th and 5th names are "fabconnect_a" and "fabconnect_b". -/
theorem C1_length_and_order (StacksDir : String) (s : Stack) :
    (∃ defs : List ServiceDefinition,
      GenerateDockerServiceDefinitions StacksDir (some s) = .ok (defs.map some) ∧
      defs.length = s.Members.length + 3 ∧
      defs.map ServiceDefinition.ServiceName =
        ["ca_org1", "orderer.example.com", "peer0.org1.example.com"] ++
          s.Members.map (fun m => "fabconnect_" ++ m.ID) ∧
      ∀ i : Nat, (defs.map ServiceDefinition.ServiceName)[i + 3]? =
        (s.Members[i]?).map (fun m => "fabconnect_" ++ m.ID)) ∧
    (∃ d0 d1 d2 : ServiceDefinition,
      GenerateDockerServiceDefinitions StacksDir (some { Name := "dev", Members := [] }) =
        .ok [some d0, some d1, some d2]) ∧
    (∃ d0 d1 d2 d3 d4 : ServiceDefinition,
      GenerateDockerServiceDefinitions StacksDir
          (some { Name := "dev", Members := [{ ID := "a" }, { ID := "b" }] }) =
        .ok [some d0, some d1, some d2, some d3, some d4] ∧
      d3.ServiceName = "fabconnect_a" ∧ d4.ServiceName = "fabconnect_b") := by
  refine ⟨⟨topology StacksDir s, generate_eq StacksDir s, ?_, topology_names StacksDir s, ?_⟩,
    ⟨_, _, _, generate_eq StacksDir _⟩, ⟨_, _, _, _, _, generate_eq StacksDir _, rfl, rfl⟩⟩
  · simp [topology]
  · intro i
    rw [topology_names]
    simp [List.getElem?_map]

/-- C2: for every stack whose member identifiers are pairwise distinct, the
service names of the returned definitions are pairwise distinct. -/
theorem C2_names_distinct (StacksDir : String) (s : Stack)
    (hids : (s.Members.map Member.ID).Nodup) :
    ∃ defs : List ServiceDefinition,
      GenerateDockerServiceDefinitions StacksDir (some s) = .ok (defs.map some) ∧
      (defs.map ServiceDefinition.ServiceName).Nodup := by
  refine ⟨topology StacksDir s, generate_eq StacksDir s, ?_⟩
  rw [topology_names]
  have hmap : (s.Members.map (fun m => "fabconnect_" ++ m.ID)).Nodup := by
    have h := List.Nodup.map (f := fun id : String => "fabconnect_" ++ id)
      (fun a b hab => fabconnect_injective a b hab) hids
    simpa [List.map_map, Function.comp_def] using h
  refine List.Nodup.append (by decide) hmap ?_
  intro x hx hx'
  obtain ⟨m, _, rfl⟩ := List.mem_map.1 hx'
  have hne := fabconnect_ne_infrastructure m.ID
  simp only [List.mem_cons, List.mem_singleton, List.not_mem_nil, or_false] at hx
  rcases hx with h | h | h
  · exact hne.1 h
  · exact hne.2.1 h
  · exact hne.2.2 h

/-- Witness of C2 on the stack "dev" with the members a and b. -/
theorem C2_names_distinct_witness :
    ∃ defs : List ServiceDefinition,
      GenerateDockerServiceDefinitions "/home/user/.firefly/stacks"
        (some { Name := "dev", Members := [{ ID := "a" }, { ID := "b" }] }) =
          .ok (defs.map some) ∧
      (defs.map ServiceDefinition.ServiceName).Nodup :=
  C2_names_distinct "/home/user/.firefly/stacks"
    { Name := "dev", Members := [{ ID := "a" }, { ID := "b" }] } (by decide)

/-- C3, as stated, fails: for the stack name "." the orderer's volumes are
bound below `<stacksRoot>/blockchain`, because `path.Join` cleans the
directory, and not below the text `<stacksRoot>/./blockchain` of the layout. -/
theorem C3_counterexample :
    ∃ ca orderer peer : ServiceDefinition,
      GenerateDockerServiceDefinitions "/home/user/.firefly/stacks"
        (some { Name := ".", Members := [] }) = .ok [some ca, some orderer, some peer] ∧
      (volumesOf orderer).head? =
        some ("/home/user/.firefly/stacks/blockchain/genesis_block.pb" ++
          ":/var/hyperledger/orderer/orderer.genesis.block") ∧
      volumesOf orderer ≠ ordererBinds (layoutPath "/home/user/.firefly/stacks" ".") ∧
      volumesOf peer ≠ peerBinds (layoutPath "/home/user/.firefly/stacks" ".") :=
  ⟨_, _, _, generate_infrastructure _ _, by decide, by decide, by decide⟩

/-- C3, amended: below a non-empty stacks root every host-path binding of the
orderer and of the peer has as host part the cleaned path
`Clean(<stacksRoot>/<name>/blockchain/<suffix>)` of the documented layout
entry; when the stacks root is a clean path other than "/" and "." and the
stack name is one real path element, that is the textual concatenation
itself. -/
theorem C3_host_paths (StacksDir : String) (s : Stack) :
    ∃ (ca orderer peer : ServiceDefinition) (connectors : List (Option ServiceDefinition)),
      GenerateDockerServiceDefinitions StacksDir (some s) =
        .ok (some ca :: some orderer :: some peer :: connectors) ∧
      (StacksDir ≠ "" →
        volumesOf orderer = ordererBinds (fun suffix => Clean (layoutPath StacksDir s.Name suffix)) ∧
        volumesOf peer = peerBinds (fun suffix => Clean (layoutPath StacksDir s.Name suffix))) ∧
      (Clean StacksDir = StacksDir → StacksDir ≠ "/" → StacksDir ≠ "." → IsPathElement s.Name →
        volumesOf orderer = ordererBinds (layoutPath StacksDir s.Name) ∧
        volumesOf peer = peerBinds (layoutPath StacksDir s.Name)) := by
  have hjoin : StacksDir ≠ "" →
      volumesOf (ordererDefinition (Join [StacksDir, s.Name])) =
        ordererBinds (fun suffix => Clean (layoutPath StacksDir s.Name suffix)) ∧
      volumesOf (peerDefinition (Join [StacksDir, s.Name])) =
        peerBinds (fun suffix => Clean (layoutPath StacksDir s.Name suffix)) := by
    intro hS
    rw [orderer_volumes, peer_volumes]
    unfold ordererBinds peerBinds
    rw [join_layout StacksDir s.Name "genesis_block.pb" _ _ hS (by decide) (by decide),
      join_layout StacksDir s.Name
        "cryptogen/ordererOrganizations/example.com/orderers/orderer.example.com/msp" _ _ hS
        (by decide) (by decide),
      join_layout StacksDir s.Name
        "cryptogen/ordererOrganizations/example.com/orderers/orderer.example.com/tls" _ _ hS
        (by decide) (by decide),
      join_layout StacksDir s.Name
        "cryptogen/peerOrganizations/org1.example.com/peers/peer0.org1.example.com/msp" _ _ hS
        (by decide) (by decide),
      join_layout StacksDir s.Name
        "cryptogen/peerOrganizations/org1.example.com/peers/peer0.org1.example.com/tls" _ _ hS
        (by decide) (by decide)]
    exact ⟨rfl, rfl⟩
  refine ⟨_, _, _, _, generate_infrastructure StacksDir s, hjoin, ?_⟩
  intro hclean hroot hdot hname
  have hS : StacksDir ≠ "" := by
    intro h
    rw [h] at hclean
    exact absurd hclean (by decide)
  obtain ⟨ho, hp⟩ := hjoin hS
  rw [ho, hp]
  unfold ordererBinds peerBinds
  dsimp only
  rw [layout_clean StacksDir s.Name "genesis_block.pb" "blockchain" ["genesis_block.pb"]
      hclean hroot hdot hname (by decide) (by decide),
    layout_clean StacksDir s.Name
      "cryptogen/ordererOrganizations/example.com/orderers/orderer.example.com/msp" "blockchain"
      ["cryptogen", "ordererOrganizations", "example.com", "orderers", "orderer.example.com",
        "msp"] hclean hroot hdot hname (by decide) (by decide),
    layout_clean StacksDir s.Name
      "cryptogen/ordererOrganizations/example.com/orderers/orderer.example.com/tls" "blockchain"
      ["cryptogen", "ordererOrganizations", "example.com", "orderers", "orderer.example.com",
        "tls"] hclean hroot hdot hname (by decide) (by decide),
    layout_clean StacksDir s.Name
      "cryptogen/peerOrganizations/org1.example.com/peers/peer0.org1.example.com/msp"
      "blockchain"
      ["cryptogen", "peerOrganizations", "org1.example.com", "peers", "peer0.org1.example.com",
        "msp"] hclean hroot hdot hname (by decide) (by decide),
    layout_clean StacksDir s.Name
      "cryptogen/peerOrganizations/org1.example.com/peers/peer0.org1.example.com/tls"
      "blockchain"
      ["cryptogen", "peerOrganizations", "org1.example.com", "peers", "peer0.org1.example.com",
        "tls"] hclean hroot hdot hname (by decide) (by decide)]
  exact ⟨rfl, rfl⟩

/-- Witness of C3 on the stack "dev" below "/home/user/.firefly/stacks": the
host parts are the concatenations of the layout. -/
theorem C3_host_paths_witness :
    ∃ (ca orderer peer : ServiceDefinition) (connectors : List (Option ServiceDefinition)),
      GenerateDockerServiceDefinitions "/home/user/.firefly/stacks"
        (some { Name := "dev", Members := [{ ID := "a" }] }) =
          .ok (some ca :: some orderer :: some peer :: connectors) ∧
      volumesOf orderer = ordererBinds (layoutPath "/home/user/.firefly/stacks" "dev") ∧
      volumesOf peer = peerBinds (layoutPath "/home/user/.firefly/stacks" "dev") ∧
      (volumesOf orderer).head? =
        some ("/home/user/.firefly/stacks/dev/blockchain/genesis_block.pb" ++
          ":/var/hyperledger/orderer/orderer.genesis.block") := by
  obtain ⟨ca, orderer, peer, connectors, hgen, _, h⟩ :=
    C3_host_paths "/home/user/.firefly/stacks" { Name := "dev", Members := [{ ID := "a" }] }
  obtain ⟨ho, hp⟩ := h (by decide) (by decide) (by decide) (by decide)
  refine ⟨ca, orderer, peer, connectors, hgen, ho, hp, ?_⟩
  rw [ho]
  decide

/-- C4 at the failing input, and at every other: the peer refers to the named
volume "peer0.org1.example.com" in its Volumes and lists no volume name at
all, while the orderer lists its named volume "orderer.example.com". -/
theorem C4_peer_volume_not_listed (StacksDir : String) (s : Stack) :
    ∃ (ca orderer peer : ServiceDefinition) (connectors : List (Option ServiceDefinition)),
      GenerateDockerServiceDefinitions StacksDir (some s) =
        .ok (some ca :: some orderer :: some peer :: connectors) ∧
      "peer0.org1.example.com" ∈ namedVolumes peer ∧
      peer.VolumeNames = [] ∧
      "orderer.example.com" ∈ namedVolumes orderer ∧
      "orderer.example.com" ∈ orderer.VolumeNames := by
  refine ⟨_, _, _, _, generate_infrastructure StacksDir s, ?_, rfl, ?_, ?_⟩
  · unfold namedVolumes
    refine List.mem_map.2 ⟨"peer0.org1.example.com:/var/hyperledger/production", ?_, by decide⟩
    refine List.mem_filter.2 ⟨?_, by decide⟩
    rw [peer_volumes]
    simp
  · unfold namedVolumes
    refine List.mem_map.2
      ⟨"orderer.example.com:/var/hyperledger/production/orderer", ?_, by decide⟩
    refine List.mem_filter.2 ⟨?_, by decide⟩
    rw [orderer_volumes]
    simp
  · simp [ordererDefinition]

/-- C5, as stated, fails: the genesis binding of the orderer of the stack "dev"
has two components and does not end in ":ro". -/
theorem C5_counterexample :
    ∃ ca orderer peer : ServiceDefinition,
      GenerateDockerServiceDefinitions "/home/user/.firefly/stacks"
        (some { Name := "dev", Members := [] }) = .ok [some ca, some orderer, some peer] ∧
      (volumesOf orderer).head? =
        some ("/home/user/.firefly/stacks/dev/blockchain/genesis_block.pb" ++
          ":/var/hyperledger/orderer/orderer.genesis.block") ∧
      ((volumesOf orderer).take 3).all (fun b => !isReadOnlyBinding b) = true :=
  ⟨_, _, _, generate_infrastructure _ _, by decide, by decide⟩

/-- C5, amended: the orderer binds the genesis artifact and its msp and tls
material, each as `<host path>:<container path>` at the fixed container paths,
and no entry of its Volumes carries the read-only mode. -/
theorem C5_orderer_binds_without_mode (StacksDir : String) (s : Stack) :
    ∃ (ca orderer peer : ServiceDefinition) (connectors : List (Option ServiceDefinition)),
      GenerateDockerServiceDefinitions StacksDir (some s) =
        .ok (some ca :: some orderer :: some peer :: connectors) ∧
      volumesOf orderer =
        [ Join [Join [StacksDir, s.Name], "blockchain", "genesis_block.pb"] ++
            ":/var/hyperledger/orderer/orderer.genesis.block",
          Join [Join [StacksDir, s.Name], "blockchain", "cryptogen", "ordererOrganizations",
            "example.com", "orderers", "orderer.example.com", "msp"] ++
            ":/var/hyperledger/orderer/msp",
          Join [Join [StacksDir, s.Name], "blockchain", "cryptogen", "ordererOrganizations",
            "example.com", "orderers", "orderer.example.com", "tls"] ++
            ":/var/hyperledger/orderer/tls",
          "orderer.example.com:/var/hyperledger/production/orderer" ] ∧
      ∀ b ∈ volumesOf orderer, isReadOnlyBinding b = false := by
  refine ⟨_, _, _, _, generate_infrastructure StacksDir s, orderer_volumes _, ?_⟩
  intro b hb
  rw [orderer_volumes] at hb
  simp only [List.mem_cons, List.mem_singleton, List.not_mem_nil, or_false] at hb
  rcases hb with rfl | rfl | rfl | rfl
  · exact not_readOnly_append _ _ (by decide) (by decide)
  · exact not_readOnly_append _ _ (by decide) (by decide)
  · exact not_readOnly_append _ _ (by decide) (by decide)
  · decide

/-- C6: when the genesis provisioner is called with the output path
`Join(StacksDir, name, "blockchain")`, it mounts that directory at "/genesis"
and has the block written to "/genesis/genesis_block.pb"; the file
`genesis_block.pb` of that directory is the host part of the orderer's first
binding, bound to "/var/hyperledger/orderer/orderer.genesis.block". -/
theorem C6_genesis_path_consistent (docker : Collaborator) (StacksDir : String) (s : Stack)
    (verbose : Bool) (log : List DockerCall) :
    (GenerateGenesisBlock docker (Join [StacksDir, s.Name, "blockchain"]) verbose log).2 =
      log ++ [{ workingDir := Join [StacksDir, s.Name, "blockchain"],
                showCommand := verbose, pipeStdOut := verbose,
                command := ["run", "--rm", "-v",
                  Join [StacksDir, s.Name, "blockchain"] ++ ":/genesis",
                  "hyperledger/fabric-tools", "configtxgen", "-outputBlock",
                  "/genesis/genesis_block.pb", "-profile", "SampleDevModeSolo", "-channelID",
                  "firefly"] }] ∧
    ∃ (ca orderer peer : ServiceDefinition) (connectors : List (Option ServiceDefinition)),
      GenerateDockerServiceDefinitions StacksDir (some s) =
        .ok (some ca :: some orderer :: some peer :: connectors) ∧
      (volumesOf orderer).head? =
        some ((Join [StacksDir, s.Name, "blockchain"] ++ "/genesis_block.pb") ++
          ":/var/hyperledger/orderer/orderer.genesis.block") := by
  refine ⟨rfl, _, _, _, _, generate_infrastructure StacksDir s, ?_⟩
  rw [orderer_volumes, join_genesis]
  rfl

/-- C7: when members are added after the members of a stack of the same name,
the first len(Members)+3 definitions generated for the longer stack are the
definitions generated for the shorter one, equal in every field. -/
theorem C7_extension_stable (StacksDir name : String) (members extra : List Member) :
    ∃ defs defs' : List ServiceDefinition,
      GenerateDockerServiceDefinitions StacksDir
        (some { Name := name, Members := members }) = .ok (defs.map some) ∧
      GenerateDockerServiceDefinitions StacksDir
        (some { Name := name, Members := members ++ extra }) = .ok (defs'.map some) ∧
      defs'.take (members.length + 3) = defs := by
  refine ⟨_, _, generate_eq StacksDir _, generate_eq StacksDir _, ?_⟩
  simp [topology, List.take_append_eq_append_take]

/-- C9: each provisioner makes exactly one call of the collaborator, appended
to the log of invocations, with the working directory and the argument vector
fixed by the inputs; two calls with the same inputs, whatever the collaborator
and the log, issue the same invocation. -/
theorem C9_single_fixed_call (docker docker' : Collaborator) (configPath outputPath : String)
    (verbose : Bool) (log log' : List DockerCall) :
    (GenerateCryptoMaterial docker configPath outputPath verbose log).2 =
      log ++ [{ workingDir := Dir configPath, showCommand := verbose, pipeStdOut := verbose,
                command := ["run", "--rm", "-v", configPath ++ ":/etc/template.yml", "-v",
                  outputPath ++ ":/output", "hyperledger/fabric-tools", "cryptogen", "generate",
                  "--config", "/etc/template.yml", "--output", "/output"] }] ∧
    (GenerateGenesisBlock docker outputPath verbose log).2 =
      log ++ [{ workingDir := outputPath, showCommand := verbose, pipeStdOut := verbose,
                command := ["run", "--rm", "-v", outputPath ++ ":/genesis",
                  "hyperledger/fabric-tools", "configtxgen", "-outputBlock",
                  "/genesis/genesis_block.pb", "-profile", "SampleDevModeSolo", "-channelID",
                  "firefly"] }] ∧
    (GenerateCryptoMaterial docker configPath outputPath verbose log).2.drop log.length =
      (GenerateCryptoMaterial docker' configPath outputPath verbose log').2.drop log'.length ∧
    (GenerateGenesisBlock docker outputPath verbose log).2.drop log.length =
      (GenerateGenesisBlock docker' outputPath verbose log').2.drop log'.length := by
  refine ⟨rfl, rfl, ?_, ?_⟩ <;>
    simp [GenerateCryptoMaterial, GenerateGenesisBlock, RunDockerCommand]

/-- C10: each provisioner returns what its single invocation of the
collaborator returns, nil or the error unchanged, and the log of invocations
grows by that one invocation whether it failed or not. -/
theorem C10_error_passthrough (docker : Collaborator) (configPath outputPath : String)
    (verbose : Bool) (log : List DockerCall) :
    (∃ call : DockerCall,
      (GenerateCryptoMaterial docker configPath outputPath verbose log).2 = log ++ [call] ∧
      (GenerateCryptoMaterial docker configPath outputPath verbose log).1 = docker log call) ∧
    (∃ call : DockerCall,
      (GenerateGenesisBlock docker outputPath verbose log).2 = log ++ [call] ∧
      (GenerateGenesisBlock docker outputPath verbose log).1 = docker log call) :=
  ⟨⟨_, rfl, rfl⟩, ⟨_, rfl, rfl⟩⟩

/-- C11, as stated, fails: the template mount that the crypto provisioner
passes for the configuration "/home/user/.firefly/stacks/dev/cryptogen.yaml"
has two components and does not end in ":ro". -/
theorem C11_counterexample :
    (GenerateCryptoMaterial (fun _ _ => none) "/home/user/.firefly/stacks/dev/cryptogen.yaml"
        "/home/user/.firefly/stacks/dev/blockchain/cryptogen" false []).2.map
      (fun call => call.command.take 4) =
      [["run", "--rm", "-v",
        "/home/user/.firefly/stacks/dev/cryptogen.yaml:/etc/template.yml"]] ∧
    isReadOnlyBinding "/home/user/.firefly/stacks/dev/cryptogen.yaml:/etc/template.yml" =
      false := by
  decide

/-- C11, amended: the crypto provisioner mounts the template at the fixed
in-container path "/etc/template.yml" with the mount specification
`configPath ++ ":/etc/template.yml"`, without a mode: neither this mount nor
the mount of the output directory ends in ":ro". -/
theorem C11_template_mount_without_mode (docker : Collaborator)
    (configPath outputPath : String) (verbose : Bool) (log : List DockerCall) :
    ∃ call : DockerCall,
      (GenerateCryptoMaterial docker configPath outputPath verbose log).2 = log ++ [call] ∧
      call.command.take 6 =
        ["run", "--rm", "-v", configPath ++ ":/etc/template.yml", "-v",
          outputPath ++ ":/output"] ∧
      isReadOnlyBinding (configPath ++ ":/etc/template.yml") = false ∧
      isReadOnlyBinding (outputPath ++ ":/output") = false :=
  ⟨_, rfl, rfl, not_readOnly_append _ _ (by decide) (by decide),
    not_readOnly_append _ _ (by decide) (by decide)⟩

/-- C12: the published ports of the ordering node are those of the authority
service, "7054:7054" and "17054:17054", and none of the ports the orderer is
configured to listen on (7050, 7053 and 17050) is a host or container port of
a published binding. -/
theorem C12_orderer_ports_duplicated (StacksDir : String) (s : Stack) :
    ∃ (ca orderer peer : ServiceDefinition) (connectors : List (Option ServiceDefinition)),
      GenerateDockerServiceDefinitions StacksDir (some s) =
        .ok (some ca :: some orderer :: some peer :: connectors) ∧
      portsOf ca = ["7054:7054", "17054:17054"] ∧
      portsOf orderer = portsOf ca ∧
      envOf orderer "ORDERER_GENERAL_LISTENPORT" = some "7050" ∧
      (envOf orderer "ORDERER_ADMIN_LISTENADDRESS").map addressPort = some "7053" ∧
      (envOf orderer "ORDERER_OPERATIONS_LISTENADDRESS").map addressPort = some "17050" ∧
      (portsOf orderer).all (fun b =>
        ["7050", "7053", "17050"].all (fun p =>
          decide (hostPort b ≠ p) && decide (containerPort b ≠ p))) = true :=
  ⟨_, _, _, _, generate_infrastructure StacksDir s, rfl, rfl, rfl, rfl, rfl, rfl⟩

/-- C13 at the failing input, and at every other: the authority service and
the ordering node are two services of one topology and both publish the host
ports 7054 and 17054. -/
theorem C13_ports_conflict (StacksDir : String) (s : Stack) :
    ∃ (ca orderer peer : ServiceDefinition) (connectors : List (Option ServiceDefinition)),
      GenerateDockerServiceDefinitions StacksDir (some s) =
        .ok (some ca :: some orderer :: some peer :: connectors) ∧
      ca.ServiceName ≠ orderer.ServiceName ∧
      portsConflict ca orderer = true ∧
      (portsOf ca).map hostPort = ["7054", "17054"] ∧
      (portsOf orderer).map hostPort = ["7054", "17054"] ∧
      (portsOf ca).map containerPort = ["7054", "17054"] ∧
      (portsOf orderer).map containerPort = ["7054", "17054"] :=
  ⟨_, _, _, _, generate_infrastructure StacksDir s,
    (by show "ca_org1" ≠ "orderer.example.com"; decide), rfl, rfl, rfl, rfl, rfl⟩

/-- C14: the definition at index i+3 carries only a name: the service name
"fabconnect_" followed by the identifier of member i, a nil Service and no
volume name. -/
theorem C14_connector_only_name (StacksDir : String) (s : Stack) (i : Nat) :
    ∃ defs : List (Option ServiceDefinition),
      GenerateDockerServiceDefinitions StacksDir (some s) = .ok defs ∧
      defs[i + 3]? = (s.Members[i]?).map (fun m =>
        some { ServiceName := "fabconnect_" ++ m.ID, Service := none, VolumeNames := [] }) := by
  refine ⟨_, generate_infrastructure StacksDir s, ?_⟩
  simp only [List.getElem?_cons_succ, List.map_map, List.getElem?_map]
  rfl

/-- C15: on every non-nil stack the generator returns without a panic a slice
of len(Members)+3 slots, none of them nil; the writes at the indices 0, 1, 2
and i+3 for i < len(Members) are inside the allocated slice. -/
theorem C15_total (StacksDir : String) (s : Stack) :
    (∃ defs : List ServiceDefinition,
      GenerateDockerServiceDefinitions StacksDir (some s) = .ok (defs.map some) ∧
      defs.length = s.Members.length + 3) ∧
    (∀ d : ServiceDefinition, ∀ j : Fin 3, ∃ slice,
      setSlot (List.replicate (s.Members.length + 3) none) j.val d = .ok slice ∧
      slice.length = s.Members.length + 3) ∧
    (∀ d : ServiceDefinition, ∀ i : Fin s.Members.length, ∃ slice,
      setSlot (List.replicate (s.Members.length + 3) none) (i.val + 3) d = .ok slice ∧
      slice.length = s.Members.length + 3) := by
  refine ⟨⟨topology StacksDir s, generate_eq StacksDir s, by simp [topology]⟩, ?_, ?_⟩
  · intro d j
    refine ⟨(List.replicate (s.Members.length + 3) none).set j.val (some d), ?_, ?_⟩
    · unfold setSlot
      rw [if_pos (by simp; omega)]
    · simp
  · intro d i
    refine ⟨(List.replicate (s.Members.length + 3) none).set (i.val + 3) (some d), ?_, ?_⟩
    · unfold setSlot
      rw [if_pos (by simp)]
    · simp

/-- C16, as stated, fails: the stacks "dev" and "dev/." have distinct names and
the same working directory, so the same host paths are bound for both. -/
theorem C16_counterexample :
    ("dev" : String) ≠ "dev/." ∧
    Join ["/home/user/.firefly/stacks", "dev"] = Join ["/home/user/.firefly/stacks", "dev/."] ∧
    ∃ ca1 orderer1 peer1 ca2 orderer2 peer2 : ServiceDefinition,
      GenerateDockerServiceDefinitions "/home/user/.firefly/stacks"
        (some { Name := "dev", Members := [] }) = .ok [some ca1, some orderer1, some peer1] ∧
      GenerateDockerServiceDefinitions "/home/user/.firefly/stacks"
        (some { Name := "dev/.", Members := [] }) = .ok [some ca2, some orderer2, some peer2] ∧
      volumesOf orderer1 = volumesOf orderer2 ∧ volumesOf peer1 = volumesOf peer2 :=
  ⟨by decide, by decide, _, _, _, _, _, _, generate_infrastructure _ _,
    generate_infrastructure _ _, by decide, by decide⟩

/-- C16, amended: whatever the stacks root, two stacks whose names are distinct
and one real path element each have distinct working directories, and every
host path bound for the orderer and the peer of one differs from every host
path bound for the other. -/
theorem C16_paths_distinct (StacksDir : String) (s1 s2 : Stack)
    (h1 : IsPathElement s1.Name) (h2 : IsPathElement s2.Name) (hne : s1.Name ≠ s2.Name) :
    Join [StacksDir, s1.Name] ≠ Join [StacksDir, s2.Name] ∧
    ∃ (ca1 orderer1 peer1 ca2 orderer2 peer2 : ServiceDefinition)
      (connectors1 connectors2 : List (Option ServiceDefinition)),
      GenerateDockerServiceDefinitions StacksDir (some s1) =
        .ok (some ca1 :: some orderer1 :: some peer1 :: connectors1) ∧
      GenerateDockerServiceDefinitions StacksDir (some s2) =
        .ok (some ca2 :: some orderer2 :: some peer2 :: connectors2) ∧
      volumesOf orderer1 = ordererBinds (hostUnder (Join [StacksDir, s1.Name])) ∧
      volumesOf peer1 = peerBinds (hostUnder (Join [StacksDir, s1.Name])) ∧
      volumesOf orderer2 = ordererBinds (hostUnder (Join [StacksDir, s2.Name])) ∧
      volumesOf peer2 = peerBinds (hostUnder (Join [StacksDir, s2.Name])) ∧
      ∀ suffix1 ∈ layoutEntries, ∀ suffix2 ∈ layoutEntries,
        hostUnder (Join [StacksDir, s1.Name]) suffix1 ≠
          hostUnder (Join [StacksDir, s2.Name]) suffix2 := by
  refine ⟨join_pair_ne StacksDir s1.Name s2.Name h1 h2 hne, _, _, _, _, _, _, _, _,
    generate_infrastructure StacksDir s1, generate_infrastructure StacksDir s2,
    rfl, rfl, rfl, rfl, ?_⟩
  intro suffix1 hs1 suffix2 hs2
  exact hostUnder_ne StacksDir s1.Name s2.Name suffix1 suffix2 h1 h2
    (layoutEntries_simple suffix1 hs1) (layoutEntries_simple suffix2 hs2) hne

/-- Witness of C16 on the stacks "dev" and "test" below the relative and
unclean stacks root "./stacks/". -/
theorem C16_paths_distinct_witness :
    Join ["./stacks/", "dev"] ≠ Join ["./stacks/", "test"] ∧
    ∃ (ca1 orderer1 peer1 ca2 orderer2 peer2 : ServiceDefinition)
      (connectors1 connectors2 : List (Option ServiceDefinition)),
      GenerateDockerServiceDefinitions "./stacks/"
        (some { Name := "dev", Members := [{ ID := "a" }] }) =
          .ok (some ca1 :: some orderer1 :: some peer1 :: connectors1) ∧
      GenerateDockerServiceDefinitions "./stacks/"
        (some { Name := "test", Members := [] }) =
          .ok (some ca2 :: some orderer2 :: some peer2 :: connectors2) ∧
      volumesOf orderer1 = ordererBinds (hostUnder (Join ["./stacks/", "dev"])) ∧
      volumesOf peer1 = peerBinds (hostUnder (Join ["./stacks/", "dev"])) ∧
      volumesOf orderer2 = ordererBinds (hostUnder (Join ["./stacks/", "test"])) ∧
      volumesOf peer2 = peerBinds (hostUnder (Join ["./stacks/", "test"])) ∧
      ∀ suffix1 ∈ layoutEntries, ∀ suffix2 ∈ layoutEntries,
        hostUnder (Join ["./stacks/", "dev"]) suffix1 ≠
          hostUnder (Join ["./stacks/", "test"]) suffix2 :=
  C16_paths_distinct "./stacks/" { Name := "dev", Members := [{ ID := "a" }] }
    { Name := "test", Members := [] } (by decide) (by decide) (by decide)

/-- C17, as stated, fails: below the relative stacks root "stacks" the three
host-path binds of the orderer of the stack "dev" have a source that is not an
absolute path, so its Volumes hold four named-volume bindings and the named
volumes are not the listed VolumeNames. -/
theorem C17_counterexample :
    ∃ ca orderer peer : ServiceDefinition,
      GenerateDockerServiceDefinitions "stacks" (some { Name := "dev", Members := [] }) =
        .ok [some ca, some orderer, some peer] ∧
      (volumesOf orderer).head? =
        some ("stacks/dev/blockchain/genesis_block.pb" ++
          ":/var/hyperledger/orderer/orderer.genesis.block") ∧
      ((volumesOf orderer).filter isNamedVolume).length = 4 ∧
      (volumesOf orderer).filter isNamedVolume ≠
        [orderer.ServiceName ++ ":" ++ "/var/hyperledger/production/orderer"] ∧
      namedVolumes orderer ≠ orderer.VolumeNames :=
  ⟨_, _, _, generate_infrastructure _ _, by decide, by decide, by decide, by decide⟩

/-- C17, amended: for every stack the ordering node lists exactly one volume
name, its service name "orderer.example.com", and its Volumes are three binds
from host paths joined below the directory of the stack, then the binding of
that name to "/var/hyperledger/production/orderer"; this binding is the only
named-volume binding exactly when the directory of the stack is an absolute
path, as it is below every absolute stacks root. -/
theorem C17_orderer_named_volume (StacksDir : String) (s : Stack) :
    ∃ (ca orderer peer : ServiceDefinition) (connectors : List (Option ServiceDefinition)),
      GenerateDockerServiceDefinitions StacksDir (some s) =
        .ok (some ca :: some orderer :: some peer :: connectors) ∧
      orderer.ServiceName = "orderer.example.com" ∧
      orderer.VolumeNames = [orderer.ServiceName] ∧
      volumesOf orderer = ordererBinds (hostUnder (Join [StacksDir, s.Name])) ∧
      (volumesOf orderer)[3]? =
        some (orderer.ServiceName ++ ":" ++ "/var/hyperledger/production/orderer") ∧
      (IsAbsolute StacksDir → IsAbsolute (Join [StacksDir, s.Name])) ∧
      (IsAbsolute (Join [StacksDir, s.Name]) →
        (volumesOf orderer).filter isNamedVolume =
          [orderer.ServiceName ++ ":" ++ "/var/hyperledger/production/orderer"] ∧
        ((volumesOf orderer).filter isNamedVolume).map
            (fun b => (bindingSource b, bindingTarget b)) =
          [(orderer.ServiceName, "/var/hyperledger/production/orderer")] ∧
        namedVolumes orderer = orderer.VolumeNames) ∧
      (¬ IsAbsolute (Join [StacksDir, s.Name]) →
        (volumesOf orderer).filter isNamedVolume ≠
          [orderer.ServiceName ++ ":" ++ "/var/hyperledger/production/orderer"] ∧
        namedVolumes orderer ≠ orderer.VolumeNames) := by
  refine ⟨_, _, _, _, generate_infrastructure StacksDir s, rfl, rfl, rfl, rfl,
    join_pair_absolute StacksDir s.Name, ?_, ?_⟩
  · intro habs
    have hsd : Join [StacksDir, s.Name] ≠ "" := by
      intro e
      rw [e] at habs
      exact absurd habs (by decide)
    have hrooted : ∀ (t : String) (ts : List String),
        IsAbsolute (Join (Join [StacksDir, s.Name] :: t :: ts)) := by
      intro t ts
      unfold IsAbsolute
      rw [join_cons_isRooted _ t ts hsd]
      exact habs
    have hfilter : (volumesOf (ordererDefinition (Join [StacksDir, s.Name]))).filter
        isNamedVolume = ["orderer.example.com:/var/hyperledger/production/orderer"] := by
      rw [orderer_volumes]
      have hg := isNamedVolume_of_absolute _ ":/var/hyperledger/orderer/orderer.genesis.block"
        (hrooted "blockchain" ["genesis_block.pb"])
      have hm := isNamedVolume_of_absolute _ ":/var/hyperledger/orderer/msp"
        (hrooted "blockchain"
          ["cryptogen", "ordererOrganizations", "example.com", "orderers",
            "orderer.example.com", "msp"])
      have ht := isNamedVolume_of_absolute _ ":/var/hyperledger/orderer/tls"
        (hrooted "blockchain"
          ["cryptogen", "ordererOrganizations", "example.com", "orderers",
            "orderer.example.com", "tls"])
      have hn : isNamedVolume "orderer.example.com:/var/hyperledger/production/orderer" =
          true := by
        decide
      simp only [List.filter_cons, hg, hm, ht, hn, List.filter_nil]
      rfl
    refine ⟨?_, ?_, ?_⟩
    · rw [hfilter]
      rfl
    · rw [hfilter]
      rfl
    · unfold namedVolumes
      rw [hfilter]
      rfl
  · intro hrel
    have hlen : 2 ≤ ((volumesOf (ordererDefinition (Join [StacksDir, s.Name]))).filter
        isNamedVolume).length := by
      by_cases hsd : Join [StacksDir, s.Name] = ""
      · rw [hsd]
        decide
      · have hfalse : isRooted (Join [StacksDir, s.Name]).data = false := by
          unfold IsAbsolute at hrel
          simpa using hrel
        have hhost : isRooted
            (Join [Join [StacksDir, s.Name], "blockchain", "genesis_block.pb"]).data = false := by
          rw [join_cons_isRooted _ _ _ hsd]
          exact hfalse
        have hne : Join [Join [StacksDir, s.Name], "blockchain", "genesis_block.pb"] ≠ "" := by
          rw [Join_cons_of_ne _ _ hsd]
          exact Clean_ne_empty _
        have hg := isNamedVolume_of_relative _
          ":/var/hyperledger/orderer/orderer.genesis.block" hne hhost
        have hn : isNamedVolume "orderer.example.com:/var/hyperledger/production/orderer" =
            true := by
          decide
        have hmem : "orderer.example.com:/var/hyperledger/production/orderer" ∈
            (volumesOf (ordererDefinition (Join [StacksDir, s.Name]))).tail.filter
              isNamedVolume := by
          refine List.mem_filter.2 ⟨?_, hn⟩
          rw [orderer_volumes]
          simp
        have hpos := List.length_pos_of_mem hmem
        rw [orderer_volumes] at hpos ⊢
        rw [List.filter_cons_of_pos hg]
        simp only [List.tail_cons] at hpos
        simp only [List.length_cons]
        omega
    constructor
    · intro h
      rw [h] at hlen
      simp at hlen
    · intro h
      have h2 := congrArg List.length h
      unfold namedVolumes at h2
      rw [List.length_map] at h2
      rw [h2] at hlen
      have hone : (ordererDefinition (Join [StacksDir, s.Name])).VolumeNames.length = 1 := rfl
      omega

/-- Witness of C17 on the stack "dev" below "/home/user/.firefly/stacks". -/
theorem C17_orderer_named_volume_witness :
    ∃ (ca orderer peer : ServiceDefinition) (connectors : List (Option ServiceDefinition)),
      GenerateDockerServiceDefinitions "/home/user/.firefly/stacks"
        (some { Name := "dev", Members := [{ ID := "a" }] }) =
          .ok (some ca :: some orderer :: some peer :: connectors) ∧
      orderer.VolumeNames = ["orderer.example.com"] ∧
      (volumesOf orderer).filter isNamedVolume =
        ["orderer.example.com:/var/hyperledger/production/orderer"] ∧
      namedVolumes orderer = orderer.VolumeNames := by
  obtain ⟨ca, orderer, peer, connectors, hgen, hname, hvol, _, _, hroot, h, _⟩ :=
    C17_orderer_named_volume "/home/user/.firefly/stacks"
      { Name := "dev", Members := [{ ID := "a" }] }
  obtain ⟨hf, _, hn⟩ := h (hroot (by decide))
  rw [hname] at hvol hf
  exact ⟨ca, orderer, peer, connectors, hgen, hvol, hf, hn⟩

/-- C18: the peer announces its own service name: CORE_PEER_ID is the service
name; CORE_PEER_ADDRESS, CORE_PEER_GOSSIP_BOOTSTRAP and
CORE_PEER_GOSSIP_EXTERNALENDPOINT are the service name followed by ":7051",
the port of CORE_PEER_LISTENADDRESS; CORE_PEER_CHAINCODEADDRESS is the
service name followed by ":7052", the port of
CORE_PEER_CHAINCODELISTENADDRESS. -/
theorem C18_peer_self_reference (StacksDir : String) (s : Stack) :
    ∃ (ca orderer peer : ServiceDefinition) (connectors : List (Option ServiceDefinition)),
      GenerateDockerServiceDefinitions StacksDir (some s) =
        .ok (some ca :: some orderer :: some peer :: connectors) ∧
      envOf peer "CORE_PEER_ID" = some peer.ServiceName ∧
      envOf peer "CORE_PEER_ADDRESS" = some (peer.ServiceName ++ ":7051") ∧
      envOf peer "CORE_PEER_GOSSIP_BOOTSTRAP" = some (peer.ServiceName ++ ":7051") ∧
      envOf peer "CORE_PEER_GOSSIP_EXTERNALENDPOINT" = some (peer.ServiceName ++ ":7051") ∧
      (envOf peer "CORE_PEER_LISTENADDRESS").map addressPort = some "7051" ∧
      (envOf peer "CORE_PEER_ADDRESS").map addressPort =
        (envOf peer "CORE_PEER_LISTENADDRESS").map addressPort ∧
      envOf peer "CORE_PEER_CHAINCODEADDRESS" = some (peer.ServiceName ++ ":7052") ∧
      (envOf peer "CORE_PEER_CHAINCODELISTENADDRESS").map addressPort = some "7052" ∧
      (envOf peer "CORE_PEER_CHAINCODEADDRESS").map addressPort =
        (envOf peer "CORE_PEER_CHAINCODELISTENADDRESS").map addressPort :=
  ⟨_, _, _, _, generate_infrastructure StacksDir s, rfl, rfl, rfl, rfl, rfl, rfl, rfl, rfl, rfl⟩

/-- C19: for two stacks, whatever their names and members, the authority
definitions are equal in every field, and the orderer and peer definitions
are equal in every field but Volumes, where the container paths and the
named-volume bindings are the same and only the host paths joined below the
directory of the stack may differ. -/
theorem C19_infrastructure_independent_of_stack (StacksDir : String) (s1 s2 : Stack) :
    ∃ (ca1 orderer1 peer1 ca2 orderer2 peer2 : ServiceDefinition)
      (connectors1 connectors2 : List (Option ServiceDefinition)),
      GenerateDockerServiceDefinitions StacksDir (some s1) =
        .ok (some ca1 :: some orderer1 :: some peer1 :: connectors1) ∧
      GenerateDockerServiceDefinitions StacksDir (some s2) =
        .ok (some ca2 :: some orderer2 :: some peer2 :: connectors2) ∧
      ca1 = ca2 ∧
      clearVolumes orderer1 = clearVolumes orderer2 ∧
      clearVolumes peer1 = clearVolumes peer2 ∧
      volumesOf orderer1 = ordererBinds (hostUnder (Join [StacksDir, s1.Name])) ∧
      volumesOf orderer2 = ordererBinds (hostUnder (Join [StacksDir, s2.Name])) ∧
      volumesOf peer1 = peerBinds (hostUnder (Join [StacksDir, s1.Name])) ∧
      volumesOf peer2 = peerBinds (hostUnder (Join [StacksDir, s2.Name])) ∧
      orderer1.ServiceName = orderer2.ServiceName ∧ peer1.ServiceName = peer2.ServiceName ∧
      portsOf orderer1 = portsOf orderer2 ∧ portsOf peer1 = portsOf peer2 ∧
      orderer1.VolumeNames = orderer2.VolumeNames ∧ peer1.VolumeNames = peer2.VolumeNames :=
  ⟨_, _, _, _, _, _, _, _, generate_infrastructure StacksDir s1,
    generate_infrastructure StacksDir s2, rfl, rfl, rfl, rfl, rfl, rfl, rfl, rfl, rfl, rfl, rfl,
    rfl, rfl⟩

/-- C20: the ordering node has the image of the authority service,
"hyperledger/fabric-ca:latest", and the startup command "orderer"; the peer
has the image "hyperledger/fabric-peer:latest", and a connector has no image
at all. -/
theorem C20_orderer_image (StacksDir : String) (s : Stack) :
    ∃ (ca orderer peer : ServiceDefinition),
      GenerateDockerServiceDefinitions StacksDir (some s) =
        .ok (some ca :: some orderer :: some peer ::
          s.Members.map (fun m => some (connectorDefinition m))) ∧
      imageOf ca = some "hyperledger/fabric-ca:latest" ∧
      imageOf orderer = imageOf ca ∧
      commandOf orderer = some "orderer" ∧
      imageOf peer = some "hyperledger/fabric-peer:latest" ∧
      imageOf peer ≠ imageOf ca ∧
      ∀ m : Member, imageOf (connectorDefinition m) = none := by
  refine ⟨caDefinition, ordererDefinition (Join [StacksDir, s.Name]),
    peerDefinition (Join [StacksDir, s.Name]), ?_, rfl, rfl, rfl, rfl, ?_, fun _ => rfl⟩
  · rw [generate_infrastructure]
    simp [List.map_map, Function.comp_def]
  · show some "hyperledger/fabric-peer:latest" ≠ some "hyperledger/fabric-ca:latest"
    decide

end Fabric
